import Mathlib

/-!
Verification development for the DD-OS backend runtime.

This file embeds, shallowly, the orchestration core of the repository:
the `ToolRegistry` scans of `ddos-local-server.py`, the `SubagentManager`
spawn / collect / cleanup logic of the same file, and the MCP protocol
client (`skills/mcp_client.py`) and manager (`skills/mcp_manager.py`).
Pure functions of the source become Lean functions; stateful methods
become explicit state-passing functions; effectful calls (subprocess
spawning, pipe I/O, clocks) are parameterised by their observable
outcomes.  Python dicts are modelled by insertion-ordered association
lists with replace-in-place update, matching CPython dict semantics.
-/

namespace DDOS

/-! ## Python dict model

A Python `dict[str, V]` is an insertion-ordered association list with
unique keys.  `set` replaces the value in place when the key exists and
appends otherwise (CPython keeps the original position of an updated
key); `dget` returns the binding. -/

/-- Insertion-ordered string-keyed dictionary, as CPython dicts behave. -/
def PyDict (α : Type) : Type := List (String × α)

namespace PyDict

instance {α : Type} [DecidableEq α] : DecidableEq (PyDict α) :=
  inferInstanceAs (DecidableEq (List (String × α)))

def empty {α : Type} : PyDict α := []

/-- `d[k] = v` in Python: replace in place if present, else append. -/
def set {α : Type} : PyDict α → String → α → PyDict α
  | [], k, v => [(k, v)]
  | p :: rest, k, v => if p.1 = k then (k, v) :: rest else p :: set rest k v

/-- `d.get(k)` in Python. -/
def dget {α : Type} : PyDict α → String → Option α
  | [], _ => none
  | p :: rest, k => if p.1 = k then some p.2 else dget rest k

/-- `k in d` in Python. -/
def contains {α : Type} (d : PyDict α) (k : String) : Bool :=
  (dget d k).isSome

/-- The values of a dict, in insertion order (`d.values()`). -/
def values {α : Type} (d : PyDict α) : List α := d.map (fun p => p.2)

/-- In-place mutation `d[k].field = v` of the value stored at `k`. -/
def update {α : Type} : PyDict α → String → (α → α) → PyDict α
  | [], _, _ => []
  | p :: rest, k, f => if p.1 = k then (p.1, f p.2) :: rest else p :: update rest k f

end PyDict

/-! ## Tool registry data model (`ddos-local-server.py`, class `ToolRegistry`)

The registry owns four maps: `builtin_tools` (name → handler; handlers
are registered as bare names at startup, line 3715), `plugin_tools`,
`instruction_tools` and `mcp_tools`. -/

/-- A `plugin_tools` entry as built by `scan_plugins` (manifest pass). -/
structure PluginSpec where
  name : String
  exePath : String
  runtime : String
  description : String
  dangerLevel : String
  version : String
  skillDir : String
  deriving Repr, DecidableEq

/-- An `instruction_tools` entry as built by `scan_plugins` (SKILL.md pass). -/
structure InstructionSpec where
  name : String
  originalName : String
  skillPath : String
  skillDir : String
  description : String
  version : String
  deriving Repr, DecidableEq

/-- An `mcp_tools` entry as built by `scan_mcp_servers`. -/
structure McpSpec where
  name : String
  server : String
  description : String
  deriving Repr, DecidableEq

/-- The four source maps of `ToolRegistry`. -/
structure Registry where
  builtinTools : PyDict String
  pluginTools : PyDict PluginSpec
  instructionTools : PyDict InstructionSpec
  mcpTools : PyDict McpSpec
  deriving DecidableEq

/-- `ToolRegistry.register_builtin`. -/
def Registry.registerBuiltin (r : Registry) (name handler : String) : Registry :=
  { r with builtinTools := PyDict.set r.builtinTools name handler }

/-- `skill_name_to_tool_name` (line 187): kebab-case → snake_case, lowered. -/
def skillNameToToolName (name : String) : String :=
  String.map Char.toLower (String.map (fun c => if c = '-' ∨ c = ' ' then '_' else c) name)

/-! ### Filesystem snapshot consumed by `scan_plugins`

`scan_plugins` walks the skills directories (user dir, then project dir)
with `rglob`, visiting directories that contain a `manifest.json`
(pass 1) and directories that contain a `SKILL.md` (pass 2).  We model
the walked tree as a list of skills directories, each a list of
directory entries in `rglob` order.  Manifest-level default fields
(`executable`, `runtime`, `dangerLevel`, `version` fall back from the
tool entry to the top-level spec, and `tools` defaults to `[spec]`) are
resolved into each `ManifestTool`, since they only determine the stored
payload; `exeExists` records whether `skill_dir / executable` exists on
disk. -/

structure ManifestTool where
  toolName : String
  exeExists : Bool
  exePath : String
  runtime : String
  description : String
  dangerLevel : String
  version : String
  deriving Repr, DecidableEq

/-- A parsed `manifest.json`; `parseOk = false` models a
`json.loads` failure (the whole directory is skipped, but only after it
was added to `seen_dirs`). -/
structure Manifest where
  parseOk : Bool
  tools : List ManifestTool
  deriving Repr, DecidableEq

/-- A `SKILL.md` file.  `name` is the frontmatter `name` key
(`parse_skill_frontmatter` never raises; a missing key falls back to
the directory name).  `parseOk = false` models the rare in-loop
exception (e.g. a non-string frontmatter name), caught per entry. -/
structure SkillFile where
  name : Option String
  description : String
  version : String
  parseOk : Bool
  deriving Repr, DecidableEq

/-- One directory under a skills root, with its resolved path key
(`seen_dirs` key), its basename, and its optional manifest / SKILL.md. -/
structure SkillDirEntry where
  key : String
  dirName : String
  manifest : Option Manifest
  skill : Option SkillFile
  deriving Repr, DecidableEq

/-- A filesystem snapshot: the skills directories in scan order
(`_get_skills_dirs`), each with its directory entries in `rglob` order. -/
def FsSnapshot : Type := List (List SkillDirEntry)

/-! ### `scan_plugins` (lines 318–427)

The scan-local state: the two rebuilt maps plus the scan-local
`seen_dirs` and `seen_tools` sets.  The builtin map is read-only during
the scan and is passed as parameter `B`. -/

structure ScanSt where
  plugins : PyDict PluginSpec
  instrs : PyDict InstructionSpec
  seenDirs : List String
  seenTools : List String
  deriving DecidableEq

/-- The `plugin_tools` entry stored for a manifest tool (lines 368–379). -/
def pluginSpecOf (skillDir : String) (t : ManifestTool) : PluginSpec :=
  { name := t.toolName
    exePath := t.exePath
    runtime := t.runtime
    description := t.description
    dangerLevel := t.dangerLevel
    version := t.version
    skillDir := skillDir }

/-- Registering one manifest tool entry (lines 347–382): skip on empty
`toolName`, on a name already claimed this scan, on a missing
executable, and on a builtin-name conflict; otherwise insert the
plugin spec and claim the name. -/
def manifestToolStep (B : PyDict String) (skillDir : String) (σ : ScanSt)
    (t : ManifestTool) : ScanSt :=
  if t.toolName = "" then σ
  else if σ.seenTools.contains t.toolName then σ
  else if t.exeExists = false then σ
  else if PyDict.contains B t.toolName then σ
  else
    { σ with
      plugins := PyDict.set σ.plugins t.toolName (pluginSpecOf skillDir t)
      seenTools := t.toolName :: σ.seenTools }

/-- Pass-1 treatment of one directory (lines 333–385): directories with
a manifest are claimed in `seen_dirs` before parsing; a parse failure
registers nothing. -/
def manifestDirStep (B : PyDict String) (σ : ScanSt) (d : SkillDirEntry) : ScanSt :=
  match d.manifest with
  | none => σ
  | some m =>
    if σ.seenDirs.contains d.key then σ
    else if m.parseOk then
      m.tools.foldl (manifestToolStep B d.key) { σ with seenDirs := d.key :: σ.seenDirs }
    else { σ with seenDirs := d.key :: σ.seenDirs }

/-- The tool name a skill file registers under (line 400). -/
def skillToolName (d : SkillDirEntry) (sk : SkillFile) : String :=
  skillNameToToolName (sk.name.getD d.dirName)

/-- The `instruction_tools` entry stored for a skill file
(lines 407–417). -/
def instructionSpecOf (d : SkillDirEntry) (sk : SkillFile) : InstructionSpec :=
  { name := skillToolName d sk
    originalName := sk.name.getD d.dirName
    skillPath := d.key ++ "/SKILL.md"
    skillDir := d.key
    description := sk.description
    version := sk.version }

/-- Pass-2 treatment of one directory (lines 388–423): skip directories
already claimed by pass 1, derive the tool name from the frontmatter
name (falling back to the directory name), and skip on conflict with a
builtin, a plugin, or a name already claimed this scan. -/
def skillDirStep (B : PyDict String) (σ : ScanSt) (d : SkillDirEntry) : ScanSt :=
  match d.skill with
  | none => σ
  | some sk =>
    if σ.seenDirs.contains d.key then σ
    else if sk.parseOk then
      if PyDict.contains B (skillToolName d sk)
          ∨ PyDict.contains σ.plugins (skillToolName d sk)
          ∨ σ.seenTools.contains (skillToolName d sk) then
        { σ with seenDirs := d.key :: σ.seenDirs }
      else
        { σ with
          seenDirs := d.key :: σ.seenDirs
          instrs := PyDict.set σ.instrs (skillToolName d sk) (instructionSpecOf d sk)
          seenTools := skillToolName d sk :: σ.seenTools }
    else { σ with seenDirs := d.key :: σ.seenDirs }

/-- One skills directory: pass 1 over all its entries, then pass 2. -/
def scanSkillsDir (B : PyDict String) (σ : ScanSt) (ds : List SkillDirEntry) : ScanSt :=
  ds.foldl (skillDirStep B) (ds.foldl (manifestDirStep B) σ)

/-- The scan over all skills directories, from a given scan state. -/
def scanPluginsSt (B : PyDict String) (fs : FsSnapshot) (σ : ScanSt) : ScanSt :=
  fs.foldl (scanSkillsDir B) σ

/-- `ToolRegistry.scan_plugins`: note that the method never clears
`plugin_tools` or `instruction_tools`; it resumes from their current
contents with fresh `seen_dirs` / `seen_tools` sets. -/
def Registry.scanPlugins (r : Registry) (fs : FsSnapshot) : Registry :=
  let σ := scanPluginsSt r.builtinTools fs
    { plugins := r.pluginTools, instrs := r.instructionTools, seenDirs := [], seenTools := [] }
  { r with pluginTools := σ.plugins, instructionTools := σ.instrs }

/-! ### `scan_mcp_servers` (lines 429–458)

The method builds an `MCPClientManager`, runs `initialize_all` (whose
outcome — the success count and the `get_all_tools()` catalog — depends
on subprocess connections and is passed in here), and registers every
catalog tool that does not collide with a builtin, plugin or
instruction name.  The `mcp_tools` map is not cleared and not consulted
for conflicts. -/

/-- One element of `MCPClientManager.get_all_tools()`
(`MCPToolInfo.to_dict`). -/
structure McpToolInfo where
  name : String
  server : String
  description : String
  deriving Repr, DecidableEq

def mcpCatalogStep (r : Registry) (info : McpToolInfo) : Registry :=
  if PyDict.contains r.builtinTools info.name ∨ PyDict.contains r.pluginTools info.name
      ∨ PyDict.contains r.instructionTools info.name then r
  else
    { r with
      mcpTools := PyDict.set r.mcpTools info.name
        { name := info.name
          server := info.server
          description := info.description } }

/-- `ToolRegistry.scan_mcp_servers`, parameterised by the MCP support
flag, the connected-server count and the manager catalog. -/
def Registry.scanMcpServers (r : Registry) (hasMcp : Bool) (count : Nat)
    (catalog : List McpToolInfo) : Registry :=
  if hasMcp = false then r
  else if count = 0 then r
  else catalog.foldl mcpCatalogStep r

/-- `ToolRegistry.is_registered`. -/
def Registry.isRegistered (r : Registry) (name : String) : Bool :=
  PyDict.contains r.builtinTools name ∨ PyDict.contains r.pluginTools name
    ∨ PyDict.contains r.instructionTools name ∨ PyDict.contains r.mcpTools name

/-! ## MCP manager (`skills/mcp_manager.py`, class `MCPClientManager`)

The manager's tool catalog: `_tools` (key → `MCPToolInfo`) and
`_tool_to_server` (short name → owning server). -/

/-- A catalog entry (`MCPToolInfo`): the key it was stored under, the
owning server, and the description. -/
structure MgrToolInfo where
  name : String
  serverName : String
  description : String
  deriving Repr, DecidableEq

/-- The two catalog dicts of `MCPClientManager`. -/
structure MgrState where
  tools : PyDict MgrToolInfo
  toolToServer : PyDict String
  deriving DecidableEq

def MgrState.empty : MgrState := { tools := [], toolToServer := [] }

/-- A tool as reported by a client's `list_tools` (`MCPTool`). -/
structure McpTool where
  name : String
  description : String
  deriving Repr, DecidableEq

/-- The qualified name `mcp_<server>_<tool>` (line 158). -/
def qualifiedName (server tool : String) : String :=
  "mcp_" ++ server ++ "_" ++ tool

/-- Registering one tool of a server (`_register_tools` loop body,
lines 156–177): if the short name is already owned, store under the
qualified name; otherwise claim the short name and record the owner. -/
def registerToolStep (serverName : String) (st : MgrState) (tool : McpTool) : MgrState :=
  let qualified := qualifiedName serverName tool.name
  if PyDict.contains st.toolToServer tool.name then
    { st with
      tools := PyDict.set st.tools qualified
        { name := qualified
          serverName := serverName
          description := tool.description } }
  else
    { tools := PyDict.set st.tools tool.name
        { name := tool.name
          serverName := serverName
          description := tool.description }
      toolToServer := PyDict.set st.toolToServer tool.name serverName }

/-- `MCPClientManager._register_tools`. -/
def registerTools (st : MgrState) (serverName : String) (tools : List McpTool) : MgrState :=
  tools.foldl (registerToolStep serverName) st

/-- `MCPClientManager.get_all_tools`: the catalog values in insertion
order, as the dicts handed to `ToolRegistry.scan_mcp_servers`. -/
def MgrState.getAllTools (st : MgrState) : List McpToolInfo :=
  (PyDict.values st.tools).map
    (fun info => { name := info.name, server := info.serverName, description := info.description })

/-! ## MCP client (`skills/mcp_client.py`, class `MCPClient`)

### Request/response plumbing (`_send_request`, `_read_responses`)

`_send_request` allocates a monotonically increasing id, installs a
fresh single-consumer queue in `_response_queue`, writes the request,
blocks on the queue up to `timeout`, and in a `finally` block removes
the queue entry.  The reader thread delivers a parsed line bearing an
`id` to the matching queue if one is installed, and silently drops it
otherwise.  We model the pending table as the list of installed ids and
parameterise `_send_request` by the response delivered within the
timeout, if any. -/

/-- `error` member of a JSON-RPC response. -/
structure RpcErr where
  code : Int
  msg : String
  deriving Repr, DecidableEq

/-- One content part of an MCP `tools/call` result.  Key-absence
defaults of the source (`item.get('text', '')`,
`item.get('mimeType', 'image/*')`, `item.get('uri', '')`) are resolved
into the payloads; `other` is any part with an unrecognised `type`. -/
inductive ContentItem where
  | text (s : String)
  | image (mime : String)
  | resource (uri : String)
  | other (ty : String)
  deriving Repr, DecidableEq

/-- The `result` member of a `tools/call` response, as a Python dict:
`isErrorKey = some b` means the key is present with truthiness `b`;
`otherKeys` records whether any further key is present (this decides
dict truthiness for `if result:`). -/
structure CallResult where
  isErrorKey : Option Bool
  contentKey : Option (List ContentItem)
  otherKeys : Bool
  deriving Repr, DecidableEq

/-- Python truthiness of the result dict. -/
def CallResult.truthy (r : CallResult) : Bool :=
  r.isErrorKey.isSome || r.contentKey.isSome || r.otherKeys

/-- `result.get("isError")` truthiness. -/
def CallResult.isErr (r : CallResult) : Bool := r.isErrorKey.getD false

/-- `result.get("content", [])`. -/
def CallResult.content (r : CallResult) : List ContentItem := r.contentKey.getD []

/-- A JSON-RPC response object as seen by `_send_request`:
`errorKey = some e` iff `"error" in response`; `resultKey` is
`response.get("result")` (`none` models an absent or null result). -/
structure RpcResponse where
  errorKey : Option RpcErr
  resultKey : Option CallResult
  deriving Repr, DecidableEq

/-- The wire-facing state of one client session. -/
structure ClientWire where
  processAlive : Bool
  requestId : Nat
  pending : List Nat
  deriving Repr, DecidableEq

/-- Outcome of `_send_request`: normal return, a raised `MCPError`
(RPC error member), a raised `TimeoutError`, or the raised
`MCPError(-1, "Process not running")`. -/
inductive SendOutcome where
  | ok (result : Option CallResult)
  | rpcError (code : Int) (msg : String)
  | timeoutErr
  | notRunning
  deriving Repr, DecidableEq

/-- `MCPClient._send_request` (lines 249–301), parameterised by the
response the reader delivers to this request's queue within the
timeout (`none` = no response arrived in time).  The `finally` block
removes the pending entry on every exit path. -/
def sendRequest (st : ClientWire) (arrival : Option RpcResponse) :
    SendOutcome × ClientWire :=
  if st.processAlive = false then (SendOutcome.notRunning, st)
  else
    let rid := st.requestId + 1
    let outcome :=
      match arrival with
      | none => SendOutcome.timeoutErr
      | some resp =>
        match resp.errorKey with
        | some e => SendOutcome.rpcError e.code e.msg
        | none => SendOutcome.ok resp.resultKey
    (outcome,
      { st with
        requestId := rid
        pending := (rid :: st.pending).filter (fun i => i ≠ rid) })

/-- A line read by the reader thread, after `json.loads`:
either invalid JSON, an object with an `id`, an id-less object with a
`method`, or anything else. -/
inductive WireMsg where
  | invalidJson
  | withId (id : Nat) (payload : RpcResponse)
  | notification (method : String)
  | other
  deriving Repr, DecidableEq

/-- What the reader loop does with one line (lines 330–348). -/
inductive ReaderAction where
  | deliver (id : Nat)
  | discard
  | notify (method : String)
  | skip
  deriving Repr, DecidableEq

/-- One iteration of `MCPClient._read_responses` on a parsed line:
a response whose id has a pending queue is delivered to it; a response
whose id has no pending queue is silently dropped; an id-less message
with a method goes to `_handle_notification`; everything else is
ignored. -/
def readerRoute (pending : List Nat) (msg : WireMsg) : ReaderAction :=
  match msg with
  | WireMsg.invalidJson => ReaderAction.skip
  | WireMsg.withId id _ =>
    if pending.contains id then ReaderAction.deliver id else ReaderAction.discard
  | WireMsg.notification method => ReaderAction.notify method
  | WireMsg.other => ReaderAction.skip

/-! ### `call_tool` result normalisation (lines 193–241) -/

/-- Outcome of `call_tool` after a response arrived: either a raised
`MCPError` or a returned value (`none` = Python `None`). -/
inductive CallToolOut where
  | raised (msg : String)
  | value (s : Option String)
  deriving Repr, DecidableEq

/-- Flattening of one content part on the success path; parts with an
unrecognised type contribute nothing. -/
def renderItem : ContentItem → Option String
  | ContentItem.text s => some s
  | ContentItem.image mime => some ("[Image: " ++ mime ++ "]")
  | ContentItem.resource uri => some ("[Resource: " ++ uri ++ "]")
  | ContentItem.other _ => none

/-- The text of a part if it is text-typed (error-path aggregation). -/
def textOfItem : ContentItem → Option String
  | ContentItem.text s => some s
  | _ => none

/-- `MCPClient.call_tool` result handling (lines 218–241), applied to
the `result` member returned by `_send_request`: a truthy result with
truthy `isError` raises a tool-execution `MCPError` carrying the
concatenated text parts; a truthy result without it returns the
newline-joined flattening of all parts; a falsy (absent or empty)
result returns Python `None`. -/
def callToolNormalize (result : Option CallResult) : CallToolOut :=
  match result with
  | none => CallToolOut.value none
  | some r =>
    if r.truthy = false then CallToolOut.value none
    else if r.isErr then
      CallToolOut.raised
        ("Tool execution error: " ++ String.join (List.filterMap textOfItem r.content))
    else
      CallToolOut.value
        (some (String.intercalate "\n" (List.filterMap renderItem r.content)))

/-! ### `connect` / `disconnect` (lines 82–165)

The connection-level state of one client.  `procAlive = none` models
`self._process is None`; `some b` a spawned process whose `poll()` is
`None` iff `b`.  `spawnCount`, `readerThreads` and `handshakes` count
the `subprocess.Popen` calls, started reader threads and issued
`initialize` requests, so that "connect does not redo X" is expressible
as the counter staying put. -/

structure ClientConnSt where
  connectedFlag : Bool
  procAlive : Option Bool
  running : Bool
  readerThreads : Nat
  spawnCount : Nat
  handshakes : Nat
  toolsCache : List McpTool
  serverInfo : Option String
  deriving Repr, DecidableEq

/-- The `connected` property (lines 78–80):
`self._connected and self._process is not None and self._process.poll() is None`. -/
def connectedB (st : ClientConnSt) : Bool :=
  st.connectedFlag && decide (st.procAlive = some true)

/-- `MCPClient.disconnect` (lines 148–165): stop the reader flag, clear
the connected flag, terminate and drop the process, clear the tool
cache. -/
def clientDisconnect (st : ClientConnSt) : ClientConnSt :=
  { st with
    running := false
    connectedFlag := false
    procAlive := none
    toolsCache := [] }

/-- The environment outcomes `connect` depends on: whether
`subprocess.Popen` succeeds, and the `initialize` result (`none` models
both a falsy result and a raised timeout/failure — all paths call
`disconnect()` and return `False`). -/
structure ConnectEnv where
  spawnOk : Bool
  initResult : Option String
  deriving Repr, DecidableEq

/-- `MCPClient.connect` (lines 82–146): an already-connected client
returns `True` at once; otherwise spawn the process, start one reader
thread, issue `initialize`, and on success send `initialized` and set
the connected flag; on any failure disconnect and return `False`. -/
def clientConnect (env : ConnectEnv) (st : ClientConnSt) : Bool × ClientConnSt :=
  if connectedB st then (true, st)
  else if env.spawnOk = false then
    (false, clientDisconnect st)
  else
    let st1 :=
      { st with
        procAlive := some true
        spawnCount := st.spawnCount + 1
        running := true
        readerThreads := st.readerThreads + 1
        handshakes := st.handshakes + 1 }
    match env.initResult with
    | some info =>
      (true, { st1 with serverInfo := some info, connectedFlag := true })
    | none => (false, clientDisconnect st1)

/-! ## Subagent manager (`ddos-local-server.py`, class `SubagentManager`) -/

/-- The five statuses of an `AgentRecord`. -/
inductive AgentStatus where
  | pending
  | queued
  | running
  | completed
  | failed
  deriving Repr, DecidableEq

/-- One record of the `agents` dict.  `completedAt = none` is Python
`None`, the value every record carries until its worker completes. -/
structure AgentRec where
  typ : String
  task : String
  status : AgentStatus
  result : Option String
  error : Option String
  startedAt : Int
  completedAt : Option Int
  deriving Repr, DecidableEq

/-- `SubagentManager.MAX_CONCURRENT`. -/
def MAX_CONCURRENT : Nat := 5

/-- Manager state: the `agents` dict and the ids handed to
`executor.submit` (the keys of `futures`). -/
structure SubMgrSt where
  agents : PyDict AgentRec
  submitted : List String
  deriving DecidableEq

/-- The count `spawn` takes under the lock:
`sum(1 for a in self.agents.values() if a['status'] == 'running')`. -/
def runningCount (st : SubMgrSt) : Nat :=
  ((PyDict.values st.agents).filter (fun a => a.status = AgentStatus.running)).length

/-- The fresh record built by `spawn` (lines 576–587). -/
def newAgentRec (typ task : String) (now : Int) : AgentRec :=
  { typ := typ
    task := task
    status := AgentStatus.pending
    result := none
    error := none
    startedAt := now
    completedAt := none }

/-- The first `with self.lock:` block of `spawn` (lines 589–598): count
the running records; at capacity insert the record as `queued` with the
explanatory error and stop (`False`); otherwise insert it as `pending`
and proceed (`True`).  Spawn never blocks and never waits. -/
def spawnCheck (st : SubMgrSt) (id typ task : String) (now : Int) : SubMgrSt × Bool :=
  let rec0 := newAgentRec typ task now
  if MAX_CONCURRENT ≤ runningCount st then
    ({ st with
        agents := PyDict.set st.agents id
          { rec0 with
            status := AgentStatus.queued
            error := some "Queue full, max 5 concurrent agents" } },
      false)
  else
    ({ st with agents := PyDict.set st.agents id rec0 }, true)

/-- `executor.submit` + `futures[agent_id] = future` (lines 601–602),
executed outside the lock. -/
def spawnSubmit (st : SubMgrSt) (id : String) : SubMgrSt :=
  { st with submitted := st.submitted ++ [id] }

/-- The second `with self.lock:` block of `spawn` (lines 604–605):
`self.agents[agent_id]['status'] = 'running'`. -/
def spawnMarkRunning (st : SubMgrSt) (id : String) : SubMgrSt :=
  { st with
    agents := PyDict.update st.agents id (fun a => { a with status := AgentStatus.running }) }

/-- The whole of `spawn` when executed without interleaving. -/
def spawn (st : SubMgrSt) (id typ task : String) (now : Int) : SubMgrSt × String :=
  let (st1, proceed) := spawnCheck st id typ task now
  if proceed then (spawnMarkRunning (spawnSubmit st1 id) id, id)
  else (st1, id)

/-! ### `collect_results` (lines 723–761)

We simulate real time with rationals.  Each agent id maps to an
optional simulated agent: whether a future was submitted for it, the
instant its worker writes the terminal status (if ever), and its fields
before and after that instant.  `future.result(timeout=remaining)`
returns as soon as the worker finishes or raises after `remaining`
seconds (the exception is swallowed); the record is then snapshotted at
the current instant. -/

structure AgentSim where
  hasFuture : Bool
  finish : Option Int
  finalStatus : AgentStatus
  curStatus : AgentStatus
  typ : String
  task : String
  finalResult : Option String
  curResult : Option String
  finalError : Option String
  curError : Option String
  deriving Repr, DecidableEq

/-- One element of the list `collect_results` returns. -/
structure CollectEntry where
  id : String
  typ : String
  task : String
  status : AgentStatus
  result : Option String
  error : Option String
  deriving Repr, DecidableEq

def statusAt (a : AgentSim) (t : Int) : AgentStatus :=
  match a.finish with
  | some c => if c ≤ t then a.finalStatus else a.curStatus
  | none => a.curStatus

def resultAt (a : AgentSim) (t : Int) : Option String :=
  match a.finish with
  | some c => if c ≤ t then a.finalResult else a.curResult
  | none => a.curResult

def errorAt (a : AgentSim) (t : Int) : Option String :=
  match a.finish with
  | some c => if c ≤ t then a.finalError else a.curError
  | none => a.curError

/-- The snapshot dict built under the lock (lines 749–759). -/
def mkEntry (id : String) (a : AgentSim) (t : Int) : CollectEntry :=
  { id := id
    typ := a.typ
    task := a.task
    status := statusAt a t
    result := resultAt a t
    error := errorAt a t }

/-- The instant at which `future.result(timeout=remaining)` returns,
when waiting on `a` from `now` with `remaining > 0` left. -/
def waitOnFuture (a : AgentSim) (now remaining : Int) : Int :=
  if a.hasFuture then
    match a.finish with
    | some c => if c ≤ now then now else min c (now + remaining)
    | none => now + remaining
  else now

/-- The loop of `collect_results`, with `now` the elapsed time since
entry and `deadline` the timeout: stop as soon as the remaining time is
not positive, otherwise wait on the id's future (if any), snapshot the
record if it exists, and continue. -/
def collectAux (sim : String → Option AgentSim) (deadline : Int) :
    List String → Int → List CollectEntry → List CollectEntry
  | [], _, acc => acc
  | id :: rest, now, acc =>
    if deadline - now ≤ 0 then acc
    else
      match sim id with
      | some a =>
        let now2 := waitOnFuture a now (deadline - now)
        collectAux sim deadline rest now2 (acc ++ [mkEntry id a now2])
      | none => collectAux sim deadline rest now acc

/-- `SubagentManager.collect_results`. -/
def collectResults (sim : String → Option AgentSim) (ids : List String)
    (timeout : Int) : List CollectEntry :=
  collectAux sim timeout ids 0 []

/-- The clock advance contributed by one requested id, mirroring the
loop (no advance once the deadline is exhausted). -/
def advanceClock (sim : String → Option AgentSim) (deadline : Int)
    (now : Int) (id : String) : Int :=
  if deadline - now ≤ 0 then now
  else
    match sim id with
    | some a => waitOnFuture a now (deadline - now)
    | none => now

/-- Elapsed time after the loop has processed a list of ids. -/
def elapsedAfter (sim : String → Option AgentSim) (deadline : Int)
    (ids : List String) : Int :=
  ids.foldl (advanceClock sim deadline) 0

/-! ### `cleanup_old_agents` (lines 763–776)

The list comprehension evaluates
`agent.get('completed_at', 0) < cutoff` before the status test; the
`completed_at` key is always present, and every record that has not
completed holds `None` there, so the comparison raises `TypeError`
before anything is removed whenever such a record exists. -/

def cleanupOldAgents (agents : PyDict AgentRec) (nowT maxAge : Int) :
    Except String (PyDict AgentRec) :=
  let cutoff := nowT - maxAge
  if (PyDict.values agents).any (fun a => a.completedAt = none) then
    Except.error "TypeError: unsupported comparison between NoneType and float"
  else
    Except.ok (agents.filter (fun p =>
      ! (decide (Option.getD p.2.completedAt 0 < cutoff)
          && (p.2.status == AgentStatus.completed || p.2.status == AgentStatus.failed))))

/-! ## Scan sequences and registry-wide predicates -/

/-- One registry scan operation, with the environment outcomes it
depends on. -/
inductive ScanOp where
  | plugins (fs : FsSnapshot)
  | mcp (hasMcp : Bool) (count : Nat) (catalog : List McpToolInfo)

/-- Running a sequence of scans against a registry. -/
def runScans (ops : List ScanOp) (r : Registry) : Registry :=
  ops.foldl
    (fun acc op =>
      match op with
      | ScanOp.plugins fs => Registry.scanPlugins acc fs
      | ScanOp.mcp h c cat => Registry.scanMcpServers acc h c cat)
    r

/-- Every tool name lives in at most one of the four source maps. -/
def Registry.uniqueNames (r : Registry) : Prop :=
  ∀ n : String,
    ((if PyDict.contains r.builtinTools n then 1 else 0)
      + (if PyDict.contains r.pluginTools n then 1 else 0)
      + (if PyDict.contains r.instructionTools n then 1 else 0)
      + (if PyDict.contains r.mcpTools n then 1 else 0) : Nat) ≤ 1

/-- No name of the builtin map appears in any other source map. -/
def Registry.builtinUnshadowed (r : Registry) : Prop :=
  ∀ n : String, PyDict.contains r.builtinTools n = true →
    PyDict.contains r.pluginTools n = false
      ∧ PyDict.contains r.instructionTools n = false
      ∧ PyDict.contains r.mcpTools n = false

/-! ## Scan-simulation machinery (for the rescan theorems)

`GoodH` captures what any suffix of a plugin scan can do to the scan
state: it only grows `seenTools`, it never rewrites a plugin or
instruction binding whose name is already claimed in `seenTools`, and
it never drops a plugin binding.  `SInv` relates the state of a second
scan to the state of the first scan at the same program point, `F`
being the final state of the first scan. -/

structure GoodH (h : ScanSt → ScanSt) : Prop where
  seenMono : ∀ σ n, n ∈ σ.seenTools → n ∈ (h σ).seenTools
  plugStable : ∀ σ n, n ∈ σ.seenTools →
    PyDict.dget (h σ).plugins n = PyDict.dget σ.plugins n
  instrStable : ∀ σ n, n ∈ σ.seenTools →
    PyDict.dget (h σ).instrs n = PyDict.dget σ.instrs n
  plugMono : ∀ σ n, PyDict.contains σ.plugins n = true →
    PyDict.contains (h σ).plugins n = true

/-- Second-scan simulation invariant: same scan-local sets, and maps
already at their final-first-scan values. -/
def SInv (σ1 σ2 F : ScanSt) : Prop :=
  σ2.seenDirs = σ1.seenDirs ∧ σ2.seenTools = σ1.seenTools
    ∧ σ2.plugins = F.plugins ∧ σ2.instrs = F.instrs

/-- A scan step simulates: if the second scan is at the first scan's
final maps, it stays there and keeps the scan-local sets in lockstep,
for any well-behaved continuation `h` of the first scan. -/
def StepSim (f : ScanSt → ScanSt) : Prop :=
  ∀ σ1 σ2 (h : ScanSt → ScanSt), GoodH h →
    SInv σ1 σ2 (h (f σ1)) → SInv (f σ1) (f σ2) (h (f σ1))

/-- Scan-wide invariant used for the uniqueness theorem: plugin and
instruction names avoid the builtin map, instruction names are claimed
in `seen_tools`, and instruction names avoid the plugin map. -/
def ScanInv (B : PyDict String) (σ : ScanSt) : Prop :=
  ∀ n : String,
    (PyDict.contains σ.plugins n = true → PyDict.contains B n = false)
      ∧ (PyDict.contains σ.instrs n = true →
          PyDict.contains B n = false ∧ PyDict.contains σ.plugins n = false
            ∧ n ∈ σ.seenTools)

/-! ## Concrete scenario inputs used by witnesses and counterexamples -/

/-- A manifest tool entry named `x` whose executable exists. -/
def mtool (nm : String) : ManifestTool :=
  { toolName := nm
    exeExists := true
    exePath := "execute.py"
    runtime := "python"
    description := ""
    dangerLevel := "safe"
    version := "1.0.0" }

/-- One skills root holding one directory with a one-tool manifest. -/
def fsOnePlugin (dir nm : String) : FsSnapshot :=
  [[{ key := dir, dirName := dir, manifest := some { parseOk := true, tools := [mtool nm] },
      skill := none }]]

/-- A registry with given builtins and nothing else. -/
def regOfBuiltins (bs : PyDict String) : Registry :=
  { builtinTools := bs, pluginTools := [], instructionTools := [], mcpTools := [] }

/-- A running agent record started at time 0 (as `spawn` creates,
`completed_at = None`). -/
def runningRec : AgentRec :=
  { typ := "explore"
    task := "t"
    status := AgentStatus.running
    result := none
    error := none
    startedAt := 0
    completedAt := none }

/-- Four agents already running: one slot below `MAX_CONCURRENT`. -/
def c6Base : SubMgrSt :=
  { agents := [("a1", runningRec), ("a2", runningRec), ("a3", runningRec), ("a4", runningRec)]
    submitted := ["a1", "a2", "a3", "a4"] }

/-- The interleaving: both capacity-check sections run before either
mark-running section. -/
def c6AfterChecks : SubMgrSt :=
  (spawnCheck (spawnCheck c6Base "x" "explore" "t" 0).1 "y" "explore" "t" 0).1

def c6Final : SubMgrSt :=
  spawnMarkRunning (spawnSubmit (spawnMarkRunning (spawnSubmit c6AfterChecks "x") "x") "y") "y"

/-- An agent whose worker finishes (status `completed`) at time `c`. -/
def simCompleted (c : Int) : AgentSim :=
  { hasFuture := true
    finish := some c
    finalStatus := AgentStatus.completed
    curStatus := AgentStatus.running
    typ := "explore"
    task := "t"
    finalResult := some "done"
    curResult := none
    finalError := none
    curError := none }

/-- An agent whose worker never finishes. -/
def simNever : AgentSim :=
  { hasFuture := true
    finish := none
    finalStatus := AgentStatus.running
    curStatus := AgentStatus.running
    typ := "explore"
    task := "t"
    finalResult := none
    curResult := none
    finalError := none
    curError := none }

/-- The spec scenario: `a` finishes at 1s, `b` at 3s, `c` never. -/
def c7SimScenario : String → Option AgentSim := fun id =>
  if id = "a" then some (simCompleted 1)
  else if id = "b" then some (simCompleted 3)
  else if id = "c" then some simNever
  else none

/-- Counterexample simulation: `x` never finishes, `y` completed at 0. -/
def c7SimCx : String → Option AgentSim := fun id =>
  if id = "x" then some simNever
  else if id = "y" then some (simCompleted 0)
  else none

/-- A completed agent record (worker finished at time 0). -/
def completedRec : AgentRec :=
  { typ := "explore"
    task := "t"
    status := AgentStatus.completed
    result := some "r"
    error := none
    startedAt := 0
    completedAt := some 0 }

/-- Registry after an MCP scan followed by a plugin scan that reuse the
name `x` (see claim C1). -/
def c1CxResult : Registry :=
  runScans
    [ScanOp.mcp true 1 [{ name := "x", server := "s", description := "" }],
      ScanOp.plugins (fsOnePlugin "d1" "x")]
    (regOfBuiltins [("readFile", "readFile")])

/-- Manager catalog after server `a` registered its tool `search`. -/
def c2MgrSt : MgrState :=
  registerTools MgrState.empty "a" [{ name := "search", description := "d" }]

/-- Registry scan of that catalog against a builtin also named
`search`. -/
def c2CxResult : Registry :=
  Registry.scanMcpServers (regOfBuiltins [("search", "search")]) true 1
    (MgrState.getAllTools c2MgrSt)

/-! # Theorems -/

/-! ## Dictionary lemmas -/

namespace PyDict

theorem dget_set {α : Type} (d : PyDict α) (k k' : String) (v : α) :
    dget (set d k v) k' = if k' = k then some v else dget d k' := by
  induction d with
  | nil =>
    by_cases h : k' = k
    · simp [set, dget, h]
    · have h2 : ¬ k = k' := fun hc => h hc.symm
      simp [set, dget, h, h2]
  | cons p rest ih =>
    by_cases hp : p.1 = k
    · by_cases h : k' = k
      · simp [set, dget, hp, h]
      · have h2 : ¬ k = k' := fun hc => h hc.symm
        have h3 : ¬ p.1 = k' := by rw [hp]; exact h2
        simp [set, dget, hp, h, h2, h3]
    · by_cases hpk' : p.1 = k'
      · have h4 : ¬ k' = k := fun hc => hp (hpk'.trans hc)
        simp [set, dget, hp, hpk', h4]
      · simp [set, dget, hp, hpk', ih]

theorem contains_set {α : Type} (d : PyDict α) (k k' : String) (v : α) :
    contains (set d k v) k' = (if k' = k then true else contains d k') := by
  unfold contains
  rw [dget_set]
  by_cases h : k' = k <;> simp [h]

/-- Re-inserting the current value of an existing key is a no-op. -/
theorem set_dget_self {α : Type} (d : PyDict α) (k : String) (v : α)
    (hv : dget d k = some v) : set d k v = d := by
  induction d with
  | nil => simp [dget] at hv
  | cons p rest ih =>
    obtain ⟨p1, p2⟩ := p
    by_cases hp : p1 = k
    · simp [dget, hp] at hv
      simp [set, hp, hv]
    · simp [dget, hp] at hv
      simp [set, hp, ih hv]

theorem contains_isSome {α : Type} (d : PyDict α) (k : String) :
    contains d k = true ↔ (dget d k).isSome := by
  unfold contains
  simp

end PyDict

/-! ## Claim C9: the pending table never keeps an abandoned entry -/

/-- Claim C9: for every `_send_request` execution on a live process —
whatever the delivery outcome (a successful response, an RPC error
response, or no response within the timeout) — the pending-request
table holds no entry for the allocated request id once the call
returns or raises. -/
theorem sendRequest_clears_pending (st : ClientWire) (arrival : Option RpcResponse)
    (halive : st.processAlive = true) :
    (st.requestId + 1) ∉ (sendRequest st arrival).2.pending := by
  simp only [sendRequest, halive]
  intro hmem
  rcases arrival with _ | resp
  · simp [List.mem_filter] at hmem
  · rcases hresp : resp.errorKey with _ | e <;>
      simp [hresp, List.mem_filter] at hmem

/-- Witness for C9 at a concrete session state, on the timeout path. -/
theorem sendRequest_clears_pending_witness :
    ({ processAlive := true, requestId := 6, pending := [7, 3] } : ClientWire).processAlive = true
      ∧ (7 : Nat) ∉
        (sendRequest { processAlive := true, requestId := 6, pending := [7, 3] } none).2.pending :=
  ⟨rfl, sendRequest_clears_pending
    { processAlive := true, requestId := 6, pending := [7, 3] } none rfl⟩

/-! ## Claim C4: timeout is distinct, entry removed, late response dropped -/

/-- Claim C4: when no response for the allocated id arrives within the
timeout, `_send_request` (hence `call_tool`) raises the distinct
`TimeoutError` outcome — not a generic failure and not a hang — the
pending entry for the id is removed, and a response bearing that id
arriving afterwards is silently discarded by the reader loop: it is
delivered to no caller and raises no error. -/
theorem timeout_distinct_and_late_response_discarded (st : ClientWire)
    (halive : st.processAlive = true) :
    (sendRequest st none).1 = SendOutcome.timeoutErr
      ∧ (st.requestId + 1) ∉ (sendRequest st none).2.pending
      ∧ ∀ payload : RpcResponse,
          readerRoute (sendRequest st none).2.pending
              (WireMsg.withId (st.requestId + 1) payload)
            = ReaderAction.discard := by
  refine ⟨by simp [sendRequest, halive], ?_, ?_⟩
  · simp [sendRequest, halive, List.mem_filter]
  · intro payload
    have hnot : ¬ (st.requestId + 1) ∈ (sendRequest st none).2.pending := by
      simp [sendRequest, halive, List.mem_filter]
    simp only [readerRoute]
    rw [if_neg (by simpa [List.contains_iff_exists_mem_beq, List.mem_filter] using hnot)]

/-- Witness for C4 at a concrete session state. -/
theorem timeout_distinct_witness :
    ({ processAlive := true, requestId := 0, pending := [] } : ClientWire).processAlive = true
      ∧ (sendRequest { processAlive := true, requestId := 0, pending := [] } none).1
          = SendOutcome.timeoutErr
      ∧ readerRoute (sendRequest { processAlive := true, requestId := 0, pending := [] } none).2.pending
          (WireMsg.withId 1 { errorKey := none, resultKey := none }) = ReaderAction.discard := by
  have h := timeout_distinct_and_late_response_discarded
    { processAlive := true, requestId := 0, pending := [] } rfl
  exact ⟨rfl, h.1, h.2.2 { errorKey := none, resultKey := none }⟩

/-! ## Claim C10: connect is idempotent on a connected client -/

/-- Claim C10: calling `connect()` on a client that is already
connected (connected flag set, process alive) returns `True`
immediately and leaves the state untouched: no second process is
spawned, no second reader thread started, no `initialize` handshake
re-run. -/
theorem connect_idempotent_when_connected (env : ConnectEnv) (st : ClientConnSt)
    (hconn : connectedB st = true) :
    clientConnect env st = (true, st)
      ∧ (clientConnect env st).2.spawnCount = st.spawnCount
      ∧ (clientConnect env st).2.readerThreads = st.readerThreads
      ∧ (clientConnect env st).2.handshakes = st.handshakes := by
  have h : clientConnect env st = (true, st) := by
    simp [clientConnect, hconn]
  exact ⟨h, by rw [h], by rw [h], by rw [h]⟩

/-- Witness for C10 at a concrete connected client state. -/
theorem connect_idempotent_witness :
    connectedB
        { connectedFlag := true, procAlive := some true, running := true, readerThreads := 1,
          spawnCount := 1, handshakes := 1, toolsCache := [], serverInfo := some "srv" } = true
      ∧ clientConnect { spawnOk := true, initResult := some "srv2" }
          { connectedFlag := true, procAlive := some true, running := true, readerThreads := 1,
            spawnCount := 1, handshakes := 1, toolsCache := [], serverInfo := some "srv" }
        = (true,
            { connectedFlag := true, procAlive := some true, running := true, readerThreads := 1,
              spawnCount := 1, handshakes := 1, toolsCache := [], serverInfo := some "srv" }) :=
  ⟨rfl,
    (connect_idempotent_when_connected { spawnOk := true, initResult := some "srv2" }
      { connectedFlag := true, procAlive := some true, running := true, readerThreads := 1,
        spawnCount := 1, handshakes := 1, toolsCache := [], serverInfo := some "srv" } rfl).1⟩

/-! ## Claim C5: `call_tool` result normalisation -/

/-- Counterexample to claim C5 as stated: a response whose `result` is
the empty object is a received response, yet `call_tool` returns Python
`None` for it, not the newline-joined flattening (which would be the
empty string). -/
theorem callTool_empty_result_returns_none :
    callToolNormalize (some { isErrorKey := none, contentKey := none, otherKeys := false })
        = CallToolOut.value none
      ∧ CallToolOut.value none
          ≠ CallToolOut.value
              (some (String.intercalate "\n"
                (List.filterMap renderItem ([] : List ContentItem)))) := by
  exact ⟨rfl, by decide⟩

/-- Claim C5 (amended): for a received response, a result carrying a
truthy `isError` raises a tool-execution error whose message carries
the concatenation of all text-type parts; otherwise, provided the
result object is non-empty, the call returns the newline-joined
flattening of every part (text verbatim, image and resource as
placeholders); an absent or empty result yields Python `None`. -/
theorem callTool_normalization (r : CallResult) :
    (r.isErr = true →
        callToolNormalize (some r)
          = CallToolOut.raised
              ("Tool execution error: " ++ String.join (List.filterMap textOfItem r.content)))
      ∧ (r.isErr = false → r.truthy = true →
          callToolNormalize (some r)
            = CallToolOut.value
                (some (String.intercalate "\n" (List.filterMap renderItem r.content)))) := by
  constructor
  · intro herr
    have hsome : r.isErrorKey.isSome := by
      cases hk : r.isErrorKey with
      | none => simp [CallResult.isErr, hk] at herr
      | some b => simp
    have htruthy : r.truthy = true := by
      simp [CallResult.truthy, hsome]
    simp [callToolNormalize, htruthy, herr]
  · intro herr htruthy
    simp [callToolNormalize, htruthy, herr]

/-- Witness for C5 (amended) at a concrete mixed-content result. -/
theorem callTool_normalization_witness :
    CallResult.isErr
        { isErrorKey := some false,
          contentKey := some
            [ContentItem.text "hi", ContentItem.image "image/png",
              ContentItem.resource "file:///u", ContentItem.other "audio"],
          otherKeys := false } = false
      ∧ callToolNormalize
          (some
            { isErrorKey := some false,
              contentKey := some
                [ContentItem.text "hi", ContentItem.image "image/png",
                  ContentItem.resource "file:///u", ContentItem.other "audio"],
              otherKeys := false })
        = CallToolOut.value (some "hi\n[Image: image/png]\n[Resource: file:///u]") := by
  refine ⟨rfl, ?_⟩
  have h :=
    (callTool_normalization
      { isErrorKey := some false,
        contentKey := some
          [ContentItem.text "hi", ContentItem.image "image/png",
            ContentItem.resource "file:///u", ContentItem.other "audio"],
        otherKeys := false }).2 rfl rfl
  exact h.trans (by rfl)

/-! ## Claim C6: bounded concurrency of spawn -/

/-- Claim C6 (code bug): with four agents running, two interleaved
`spawn` calls — both capacity checks (first lock section) executing
before either mark-running write (second lock section) — both pass the
check and both records end up `running`, giving six simultaneously
running records, exceeding `MAX_CONCURRENT = 5`. -/
theorem spawn_race_exceeds_capacity :
    (spawnCheck c6Base "x" "explore" "t" 0).2 = true
      ∧ (spawnCheck (spawnCheck c6Base "x" "explore" "t" 0).1 "y" "explore" "t" 0).2 = true
      ∧ runningCount c6Final = 6
      ∧ MAX_CONCURRENT < runningCount c6Final := by
  refine ⟨rfl, rfl, by decide, by decide⟩

/-! ## Claim C7: collect_results under the global deadline -/

/-- Counterexample to claim C7 as stated: requesting `[x, y]` with
timeout 5 where `x` never finishes and `y` exists and completed at
time 0: waiting on `x` exhausts the whole deadline, the loop `break`s,
and no snapshot entry is returned for `y` although it exists. -/
theorem collectResults_omits_existing_id :
    (c7SimCx "y").isSome = true
      ∧ List.map (fun e => e.id) (collectResults c7SimCx ["x", "y"] 5) = ["x"]
      ∧ ∀ e ∈ collectResults c7SimCx ["x", "y"] 5, e.id ≠ "y" := by
  refine ⟨rfl, by decide, by decide⟩

/-! ## Claim C8: cleanup_old_agents -/

/-- Claim C8 (code bug): the sweep compares `completed_at` — which is
`None` for every record that has not completed — against the cutoff
before testing the status, so with any `pending`/`running`/`queued`
record in the table the comparison raises `TypeError` and nothing is
removed; on a table whose records all carry numeric `completed_at` it
removes exactly the old completed/failed records. -/
theorem cleanup_raises_on_inflight_records :
    cleanupOldAgents [("a", runningRec)] 1000 300
        = Except.error "TypeError: unsupported comparison between NoneType and float"
      ∧ cleanupOldAgents [("b", completedRec)] 1000 300 = Except.ok []
      ∧ runningRec.status = AgentStatus.running := by
  refine ⟨rfl, rfl, rfl⟩

/-! ## Claim C3: rescanning -/

/-- Counterexample to claim C3 as stated: `scan_plugins` does not clear
the plugin map — after scanning a snapshot holding plugin `foo` and
then rescanning a snapshot from which the tool's directory was
removed, `foo` is still registered. -/
theorem scanPlugins_keeps_removed_tools :
    PyDict.contains
        (Registry.scanPlugins
          (Registry.scanPlugins (regOfBuiltins []) (fsOnePlugin "d1" "foo")) [[]]).pluginTools
        "foo" = true := by
  decide

/-! ## Claim C1: name uniqueness across scans -/

/-- Counterexample to claim C1 as stated: after `register_builtin`
calls, the scan sequence [`scan_mcp_servers`, `scan_plugins`] registers
the name `x` in both the MCP map and the plugin map (the plugin pass
checks only builtin names), so the name is not unique across the four
maps. -/
theorem scans_can_duplicate_names :
    PyDict.contains c1CxResult.pluginTools "x" = true
      ∧ PyDict.contains c1CxResult.mcpTools "x" = true
      ∧ ¬ Registry.uniqueNames c1CxResult := by
  refine ⟨by decide, by decide, fun h => absurd (h "x") (by decide)⟩

/-! ## Claim C2: MCP collision resolution -/

/-- Counterexample to claim C2 as stated: a tool whose short name
collides with a Builtin is not registered under the qualified name —
the manager (which only knows other MCP servers) stores it under its
short name, and the registry scan then skips it entirely, so neither
`search` nor `mcp_a_search` reaches the MCP map. -/
theorem mcp_builtin_collision_not_qualified :
    c2CxResult.mcpTools = ([] : PyDict McpSpec)
      ∧ PyDict.dget c2MgrSt.tools (qualifiedName "a" "search") = none
      ∧ PyDict.dget c2MgrSt.tools "search"
          = some { name := "search", serverName := "a", description := "d" } := by
  refine ⟨by decide, by decide, by decide⟩

/-! ## Plugin-scan suffix behaviour (`GoodH`) -/

theorem contains_mem {l : List String} {a : String} : l.contains a = true ↔ a ∈ l :=
  List.elem_iff

theorem goodh_id : GoodH (fun σ => σ) :=
  ⟨fun _ _ h => h, fun _ _ _ => rfl, fun _ _ _ => rfl, fun _ _ h => h⟩

theorem goodh_comp {f g : ScanSt → ScanSt} (hf : GoodH f) (hg : GoodH g) :
    GoodH (fun σ => g (f σ)) := by
  refine ⟨?_, ?_, ?_, ?_⟩
  · intro σ n hn
    exact hg.seenMono (f σ) n (hf.seenMono σ n hn)
  · intro σ n hn
    exact (hg.plugStable (f σ) n (hf.seenMono σ n hn)).trans (hf.plugStable σ n hn)
  · intro σ n hn
    exact (hg.instrStable (f σ) n (hf.seenMono σ n hn)).trans (hf.instrStable σ n hn)
  · intro σ n hn
    exact hg.plugMono (f σ) n (hf.plugMono σ n hn)

theorem goodh_foldl {β : Type} (g : ScanSt → β → ScanSt)
    (hg : ∀ x, GoodH (fun σ => g σ x)) :
    ∀ l : List β, GoodH (fun σ => List.foldl g σ l) := by
  intro l
  induction l with
  | nil => exact goodh_id
  | cons x xs ih =>
    have : GoodH (fun σ => List.foldl g (g σ x) xs) := goodh_comp (hg x) ih
    simpa [List.foldl_cons] using this


theorem goodh_manifestToolStep (B : PyDict String) (dir : String) (t : ManifestTool) :
    GoodH (fun σ => manifestToolStep B dir σ t) := by
  refine ⟨?_, ?_, ?_, ?_⟩
  · intro σ n hn
    unfold manifestToolStep
    split_ifs with h1 h2 h3 h4
    · exact hn
    · exact hn
    · exact hn
    · exact hn
    · exact List.mem_cons_of_mem _ hn
  · intro σ n hn
    unfold manifestToolStep
    split_ifs with h1 h2 h3 h4
    · rfl
    · rfl
    · rfl
    · rfl
    · have hne : n ≠ t.toolName := fun hc => h2 (contains_mem.mpr (hc ▸ hn))
      simp [PyDict.dget_set, hne]
  · intro σ n hn
    unfold manifestToolStep
    split_ifs with h1 h2 h3 h4 <;> rfl
  · intro σ n hn
    unfold manifestToolStep
    split_ifs with h1 h2 h3 h4
    · exact hn
    · exact hn
    · exact hn
    · exact hn
    · rw [PyDict.contains_set]
      split_ifs with h5
      · rfl
      · exact hn

theorem goodh_skillDirStep (B : PyDict String) (d : SkillDirEntry) :
    GoodH (fun σ => skillDirStep B σ d) := by
  refine ⟨?_, ?_, ?_, ?_⟩
  · intro σ n hn
    rcases hsk : d.skill with _ | sk
    · simp only [skillDirStep, hsk]
      exact hn
    · simp only [skillDirStep, hsk]
      split_ifs with h1 h2 h3
      · exact hn
      · exact hn
      · exact List.mem_cons_of_mem _ hn
      · exact hn
  · intro σ n hn
    rcases hsk : d.skill with _ | sk
    · simp only [skillDirStep, hsk]
    · simp only [skillDirStep, hsk]
      split_ifs with h1 h2 h3 <;> rfl
  · intro σ n hn
    rcases hsk : d.skill with _ | sk
    · simp only [skillDirStep, hsk]
    · simp only [skillDirStep, hsk]
      split_ifs with h1 h2 h3
      · rfl
      · rfl
      · have hne : n ≠ skillToolName d sk := by
          intro hc
          exact h3 (Or.inr (Or.inr (contains_mem.mpr (hc ▸ hn))))
        simp [PyDict.dget_set, hne]
      · rfl
  · intro σ n hn
    rcases hsk : d.skill with _ | sk
    · simp only [skillDirStep, hsk]
      exact hn
    · simp only [skillDirStep, hsk]
      split_ifs with h1 h2 h3 <;> exact hn

theorem goodh_manifestDirStep (B : PyDict String) (d : SkillDirEntry) :
    GoodH (fun σ => manifestDirStep B σ d) := by
  refine ⟨?_, ?_, ?_, ?_⟩
  · intro σ n hn
    rcases hm : d.manifest with _ | m
    · simp only [manifestDirStep, hm]
      exact hn
    · simp only [manifestDirStep, hm]
      split_ifs with h1 h2
      · exact hn
      · exact (goodh_foldl (manifestToolStep B d.key)
          (fun t => goodh_manifestToolStep B d.key t) m.tools).seenMono _ n hn
      · exact hn
  · intro σ n hn
    rcases hm : d.manifest with _ | m
    · simp only [manifestDirStep, hm]
    · simp only [manifestDirStep, hm]
      split_ifs with h1 h2
      · rfl
      · exact (goodh_foldl (manifestToolStep B d.key)
          (fun t => goodh_manifestToolStep B d.key t) m.tools).plugStable _ n hn
      · rfl
  · intro σ n hn
    rcases hm : d.manifest with _ | m
    · simp only [manifestDirStep, hm]
    · simp only [manifestDirStep, hm]
      split_ifs with h1 h2
      · rfl
      · exact (goodh_foldl (manifestToolStep B d.key)
          (fun t => goodh_manifestToolStep B d.key t) m.tools).instrStable _ n hn
      · rfl
  · intro σ n hn
    rcases hm : d.manifest with _ | m
    · simp only [manifestDirStep, hm]
      exact hn
    · simp only [manifestDirStep, hm]
      split_ifs with h1 h2
      · exact hn
      · exact (goodh_foldl (manifestToolStep B d.key)
          (fun t => goodh_manifestToolStep B d.key t) m.tools).plugMono _ n hn
      · exact hn

theorem goodh_scanSkillsDir (B : PyDict String) (ds : List SkillDirEntry) :
    GoodH (fun σ => scanSkillsDir B σ ds) :=
  goodh_comp (goodh_foldl (manifestDirStep B) (fun d => goodh_manifestDirStep B d) ds)
    (goodh_foldl (skillDirStep B) (fun d => goodh_skillDirStep B d) ds)

theorem goodh_scanPluginsSt (B : PyDict String) (fs : FsSnapshot) :
    GoodH (fun σ => scanPluginsSt B fs σ) :=
  goodh_foldl (scanSkillsDir B) (fun ds => goodh_scanSkillsDir B ds) fs



/-! ## Branch equations for the scan steps -/

theorem mts_skip_empty (B : PyDict String) (dir : String) (σ : ScanSt) (t : ManifestTool)
    (h1 : t.toolName = "") : manifestToolStep B dir σ t = σ := by
  unfold manifestToolStep
  rw [if_pos h1]

theorem mts_skip_seen (B : PyDict String) (dir : String) (σ : ScanSt) (t : ManifestTool)
    (h1 : ¬ t.toolName = "") (h2 : σ.seenTools.contains t.toolName = true) :
    manifestToolStep B dir σ t = σ := by
  unfold manifestToolStep
  rw [if_neg h1, if_pos h2]

theorem mts_skip_noexe (B : PyDict String) (dir : String) (σ : ScanSt) (t : ManifestTool)
    (h1 : ¬ t.toolName = "") (h2 : ¬ σ.seenTools.contains t.toolName = true)
    (h3 : t.exeExists = false) : manifestToolStep B dir σ t = σ := by
  unfold manifestToolStep
  rw [if_neg h1, if_neg h2, if_pos h3]

theorem mts_skip_builtin (B : PyDict String) (dir : String) (σ : ScanSt) (t : ManifestTool)
    (h1 : ¬ t.toolName = "") (h2 : ¬ σ.seenTools.contains t.toolName = true)
    (h3 : ¬ t.exeExists = false) (h4 : PyDict.contains B t.toolName = true) :
    manifestToolStep B dir σ t = σ := by
  unfold manifestToolStep
  rw [if_neg h1, if_neg h2, if_neg h3, if_pos h4]

theorem mts_insert (B : PyDict String) (dir : String) (σ : ScanSt) (t : ManifestTool)
    (h1 : ¬ t.toolName = "") (h2 : ¬ σ.seenTools.contains t.toolName = true)
    (h3 : ¬ t.exeExists = false) (h4 : ¬ PyDict.contains B t.toolName = true) :
    manifestToolStep B dir σ t
      = { σ with
          plugins := PyDict.set σ.plugins t.toolName (pluginSpecOf dir t)
          seenTools := t.toolName :: σ.seenTools } := by
  unfold manifestToolStep
  rw [if_neg h1, if_neg h2, if_neg h3, if_neg h4]

theorem sds_noskill (B : PyDict String) (σ : ScanSt) (d : SkillDirEntry)
    (hsk : d.skill = none) : skillDirStep B σ d = σ := by
  simp only [skillDirStep, hsk]

theorem sds_seendir (B : PyDict String) (σ : ScanSt) (d : SkillDirEntry) (sk : SkillFile)
    (hsk : d.skill = some sk) (h1 : σ.seenDirs.contains d.key = true) :
    skillDirStep B σ d = σ := by
  simp only [skillDirStep, hsk]
  rw [if_pos h1]

theorem sds_noparse (B : PyDict String) (σ : ScanSt) (d : SkillDirEntry) (sk : SkillFile)
    (hsk : d.skill = some sk) (h1 : ¬ σ.seenDirs.contains d.key = true)
    (h2 : ¬ sk.parseOk = true) :
    skillDirStep B σ d = { σ with seenDirs := d.key :: σ.seenDirs } := by
  simp only [skillDirStep, hsk]
  rw [if_neg h1, if_neg h2]

theorem sds_conflict (B : PyDict String) (σ : ScanSt) (d : SkillDirEntry) (sk : SkillFile)
    (hsk : d.skill = some sk) (h1 : ¬ σ.seenDirs.contains d.key = true)
    (h2 : sk.parseOk = true)
    (h3 : PyDict.contains B (skillToolName d sk) = true
        ∨ PyDict.contains σ.plugins (skillToolName d sk) = true
        ∨ σ.seenTools.contains (skillToolName d sk) = true) :
    skillDirStep B σ d = { σ with seenDirs := d.key :: σ.seenDirs } := by
  simp only [skillDirStep, hsk]
  rw [if_neg h1, if_pos h2, if_pos h3]

theorem sds_insert (B : PyDict String) (σ : ScanSt) (d : SkillDirEntry) (sk : SkillFile)
    (hsk : d.skill = some sk) (h1 : ¬ σ.seenDirs.contains d.key = true)
    (h2 : sk.parseOk = true)
    (h3 : ¬ (PyDict.contains B (skillToolName d sk) = true
        ∨ PyDict.contains σ.plugins (skillToolName d sk) = true
        ∨ σ.seenTools.contains (skillToolName d sk) = true)) :
    skillDirStep B σ d
      = { σ with
          seenDirs := d.key :: σ.seenDirs
          instrs := PyDict.set σ.instrs (skillToolName d sk) (instructionSpecOf d sk)
          seenTools := skillToolName d sk :: σ.seenTools } := by
  simp only [skillDirStep, hsk]
  rw [if_neg h1, if_pos h2, if_neg h3]

theorem mds_none (B : PyDict String) (σ : ScanSt) (d : SkillDirEntry)
    (hm : d.manifest = none) : manifestDirStep B σ d = σ := by
  simp only [manifestDirStep, hm]

theorem mds_seendir (B : PyDict String) (σ : ScanSt) (d : SkillDirEntry) (m : Manifest)
    (hm : d.manifest = some m) (h1 : σ.seenDirs.contains d.key = true) :
    manifestDirStep B σ d = σ := by
  simp only [manifestDirStep, hm]
  rw [if_pos h1]

theorem mds_noparse (B : PyDict String) (σ : ScanSt) (d : SkillDirEntry) (m : Manifest)
    (hm : d.manifest = some m) (h1 : ¬ σ.seenDirs.contains d.key = true)
    (h2 : ¬ m.parseOk = true) :
    manifestDirStep B σ d = { σ with seenDirs := d.key :: σ.seenDirs } := by
  simp only [manifestDirStep, hm]
  rw [if_neg h1, if_neg h2]

theorem mds_scan (B : PyDict String) (σ : ScanSt) (d : SkillDirEntry) (m : Manifest)
    (hm : d.manifest = some m) (h1 : ¬ σ.seenDirs.contains d.key = true)
    (h2 : m.parseOk = true) :
    manifestDirStep B σ d
      = m.tools.foldl (manifestToolStep B d.key) { σ with seenDirs := d.key :: σ.seenDirs } := by
  simp only [manifestDirStep, hm]
  rw [if_neg h1, if_pos h2]


/-! ## Second-scan simulation (`StepSim`) -/

theorem pd_dget_none_of_not_contains {α : Type} (d : PyDict α) (k : String)
    (h : ¬ PyDict.contains d k = true) : PyDict.dget d k = none := by
  cases hv : PyDict.dget d k with
  | none => rfl
  | some v => exact absurd (by simp [PyDict.contains, hv]) h

theorem stepsim_comp {f g : ScanSt → ScanSt} (hf : StepSim f) (hg : StepSim g)
    (hGg : GoodH g) : StepSim (fun σ => g (f σ)) := by
  intro σ1 σ2 h hG hInv
  have step1 := hf σ1 σ2 (fun σ => h (g σ)) (goodh_comp hGg hG) hInv
  exact hg (f σ1) (f σ2) h hG step1

theorem stepsim_foldl {β : Type} (g : ScanSt → β → ScanSt)
    (hsim : ∀ x, StepSim (fun σ => g σ x)) (hgood : ∀ x, GoodH (fun σ => g σ x)) :
    ∀ l : List β, StepSim (fun σ => List.foldl g σ l) := by
  intro l
  induction l with
  | nil => intro σ1 σ2 h hG hInv; simpa using hInv
  | cons x xs ih =>
    intro σ1 σ2 h hG hInv
    simp only [List.foldl_cons] at hInv ⊢
    have step1 := hsim x σ1 σ2 (fun σ => h (List.foldl g σ xs))
      (goodh_comp (goodh_foldl g hgood xs) hG) hInv
    exact ih (g σ1 x) (g σ2 x) h hG step1

theorem stepsim_manifestToolStep (B : PyDict String) (dir : String) (t : ManifestTool) :
    StepSim (fun σ => manifestToolStep B dir σ t) := by
  intro σ1 σ2 h hG hInv
  obtain ⟨hd, hs, hpl, hin⟩ := hInv
  replace hpl : σ2.plugins = (h (manifestToolStep B dir σ1 t)).plugins := hpl
  replace hin : σ2.instrs = (h (manifestToolStep B dir σ1 t)).instrs := hin
  show SInv (manifestToolStep B dir σ1 t) (manifestToolStep B dir σ2 t)
    (h (manifestToolStep B dir σ1 t))
  by_cases h1 : t.toolName = ""
  · rw [mts_skip_empty B dir σ1 t h1] at hpl hin ⊢
    rw [mts_skip_empty B dir σ2 t h1]
    exact ⟨hd, hs, hpl, hin⟩
  · by_cases h2 : σ1.seenTools.contains t.toolName = true
    · have h2b : σ2.seenTools.contains t.toolName = true := by rw [hs]; exact h2
      rw [mts_skip_seen B dir σ1 t h1 h2] at hpl hin ⊢
      rw [mts_skip_seen B dir σ2 t h1 h2b]
      exact ⟨hd, hs, hpl, hin⟩
    · have h2b : ¬ σ2.seenTools.contains t.toolName = true := by rw [hs]; exact h2
      by_cases h3 : t.exeExists = false
      · rw [mts_skip_noexe B dir σ1 t h1 h2 h3] at hpl hin ⊢
        rw [mts_skip_noexe B dir σ2 t h1 h2b h3]
        exact ⟨hd, hs, hpl, hin⟩
      · by_cases h4 : PyDict.contains B t.toolName = true
        · rw [mts_skip_builtin B dir σ1 t h1 h2 h3 h4] at hpl hin ⊢
          rw [mts_skip_builtin B dir σ2 t h1 h2b h3 h4]
          exact ⟨hd, hs, hpl, hin⟩
        · have e1 := mts_insert B dir σ1 t h1 h2 h3 h4
          have e2 := mts_insert B dir σ2 t h1 h2b h3 h4
          have hkmem : t.toolName ∈ (manifestToolStep B dir σ1 t).seenTools := by
            rw [e1]
            exact List.mem_cons_self _ _
          have hdg : PyDict.dget (h (manifestToolStep B dir σ1 t)).plugins t.toolName
              = some (pluginSpecOf dir t) := by
            rw [hG.plugStable _ _ hkmem, e1]
            show PyDict.dget (PyDict.set σ1.plugins t.toolName (pluginSpecOf dir t)) t.toolName
              = some (pluginSpecOf dir t)
            rw [PyDict.dget_set]
            simp
          refine ⟨?_, ?_, ?_, ?_⟩
          · rw [e1, e2]
            exact hd
          · rw [e1, e2]
            show t.toolName :: σ2.seenTools = t.toolName :: σ1.seenTools
            rw [hs]
          · rw [e2]
            show PyDict.set σ2.plugins t.toolName (pluginSpecOf dir t)
              = (h (manifestToolStep B dir σ1 t)).plugins
            rw [hpl]
            exact PyDict.set_dget_self _ _ _ hdg
          · rw [e2]
            exact hin

theorem stepsim_skillDirStep (B : PyDict String) (d : SkillDirEntry) :
    StepSim (fun σ => skillDirStep B σ d) := by
  intro σ1 σ2 h hG hInv
  obtain ⟨hd, hs, hpl, hin⟩ := hInv
  replace hpl : σ2.plugins = (h (skillDirStep B σ1 d)).plugins := hpl
  replace hin : σ2.instrs = (h (skillDirStep B σ1 d)).instrs := hin
  show SInv (skillDirStep B σ1 d) (skillDirStep B σ2 d) (h (skillDirStep B σ1 d))
  rcases hsk : d.skill with _ | sk
  · rw [sds_noskill B σ1 d hsk] at hpl hin ⊢
    rw [sds_noskill B σ2 d hsk]
    exact ⟨hd, hs, hpl, hin⟩
  · by_cases h1 : σ1.seenDirs.contains d.key = true
    · have h1b : σ2.seenDirs.contains d.key = true := by rw [hd]; exact h1
      rw [sds_seendir B σ1 d sk hsk h1] at hpl hin ⊢
      rw [sds_seendir B σ2 d sk hsk h1b]
      exact ⟨hd, hs, hpl, hin⟩
    · have h1b : ¬ σ2.seenDirs.contains d.key = true := by rw [hd]; exact h1
      by_cases h2 : sk.parseOk = true
      · by_cases hB : PyDict.contains B (skillToolName d sk) = true
        · have e1 := sds_conflict B σ1 d sk hsk h1 h2 (Or.inl hB)
          have e2 := sds_conflict B σ2 d sk hsk h1b h2 (Or.inl hB)
          rw [e1] at hpl hin ⊢
          rw [e2]
          refine ⟨?_, hs, hpl, hin⟩
          show d.key :: σ2.seenDirs = d.key :: σ1.seenDirs
          rw [hd]
        · by_cases hseen : σ1.seenTools.contains (skillToolName d sk) = true
          · have hseen2 : σ2.seenTools.contains (skillToolName d sk) = true := by
              rw [hs]; exact hseen
            have e1 := sds_conflict B σ1 d sk hsk h1 h2 (Or.inr (Or.inr hseen))
            have e2 := sds_conflict B σ2 d sk hsk h1b h2 (Or.inr (Or.inr hseen2))
            rw [e1] at hpl hin ⊢
            rw [e2]
            refine ⟨?_, hs, hpl, hin⟩
            show d.key :: σ2.seenDirs = d.key :: σ1.seenDirs
            rw [hd]
          · by_cases hplug : PyDict.contains σ1.plugins (skillToolName d sk) = true
            · have e1 := sds_conflict B σ1 d sk hsk h1 h2 (Or.inr (Or.inl hplug))
              have hplug2 : PyDict.contains σ2.plugins (skillToolName d sk) = true := by
                rw [hpl]
                exact hG.plugMono (skillDirStep B σ1 d) (skillToolName d sk)
                  (by rw [e1]; exact hplug)
              have e2 := sds_conflict B σ2 d sk hsk h1b h2 (Or.inr (Or.inl hplug2))
              rw [e1] at hpl hin ⊢
              rw [e2]
              refine ⟨?_, hs, hpl, hin⟩
              show d.key :: σ2.seenDirs = d.key :: σ1.seenDirs
              rw [hd]
            · have h3n1 : ¬ (PyDict.contains B (skillToolName d sk) = true
                  ∨ PyDict.contains σ1.plugins (skillToolName d sk) = true
                  ∨ σ1.seenTools.contains (skillToolName d sk) = true) := by
                intro hc
                rcases hc with hc | hc | hc
                · exact hB hc
                · exact hplug hc
                · exact hseen hc
              have e1 := sds_insert B σ1 d sk hsk h1 h2 h3n1
              have htnmem : skillToolName d sk ∈ (skillDirStep B σ1 d).seenTools := by
                rw [e1]
                exact List.mem_cons_self _ _
              have hdgp : PyDict.dget (h (skillDirStep B σ1 d)).plugins (skillToolName d sk)
                  = none := by
                rw [hG.plugStable _ _ htnmem, e1]
                show PyDict.dget σ1.plugins (skillToolName d sk) = none
                exact pd_dget_none_of_not_contains _ _ hplug
              have hplug2 : ¬ PyDict.contains σ2.plugins (skillToolName d sk) = true := by
                rw [hpl]
                simp [PyDict.contains, hdgp]
              have hseen2 : ¬ σ2.seenTools.contains (skillToolName d sk) = true := by
                rw [hs]; exact hseen
              have h3n2 : ¬ (PyDict.contains B (skillToolName d sk) = true
                  ∨ PyDict.contains σ2.plugins (skillToolName d sk) = true
                  ∨ σ2.seenTools.contains (skillToolName d sk) = true) := by
                intro hc
                rcases hc with hc | hc | hc
                · exact hB hc
                · exact hplug2 hc
                · exact hseen2 hc
              have e2 := sds_insert B σ2 d sk hsk h1b h2 h3n2
              have hdgi : PyDict.dget (h (skillDirStep B σ1 d)).instrs (skillToolName d sk)
                  = some (instructionSpecOf d sk) := by
                rw [hG.instrStable _ _ htnmem, e1]
                show PyDict.dget
                    (PyDict.set σ1.instrs (skillToolName d sk) (instructionSpecOf d sk))
                    (skillToolName d sk) = some (instructionSpecOf d sk)
                rw [PyDict.dget_set]
                simp
              refine ⟨?_, ?_, ?_, ?_⟩
              · rw [e1, e2]
                show d.key :: σ2.seenDirs = d.key :: σ1.seenDirs
                rw [hd]
              · rw [e1, e2]
                show skillToolName d sk :: σ2.seenTools = skillToolName d sk :: σ1.seenTools
                rw [hs]
              · rw [e2]
                exact hpl
              · rw [e2]
                show PyDict.set σ2.instrs (skillToolName d sk) (instructionSpecOf d sk)
                  = (h (skillDirStep B σ1 d)).instrs
                rw [hin]
                exact PyDict.set_dget_self _ _ _ hdgi
      · have e1 := sds_noparse B σ1 d sk hsk h1 h2
        have e2 := sds_noparse B σ2 d sk hsk h1b h2
        rw [e1] at hpl hin ⊢
        rw [e2]
        refine ⟨?_, hs, hpl, hin⟩
        show d.key :: σ2.seenDirs = d.key :: σ1.seenDirs
        rw [hd]

theorem stepsim_manifestDirStep (B : PyDict String) (d : SkillDirEntry) :
    StepSim (fun σ => manifestDirStep B σ d) := by
  intro σ1 σ2 h hG hInv
  obtain ⟨hd, hs, hpl, hin⟩ := hInv
  replace hpl : σ2.plugins = (h (manifestDirStep B σ1 d)).plugins := hpl
  replace hin : σ2.instrs = (h (manifestDirStep B σ1 d)).instrs := hin
  show SInv (manifestDirStep B σ1 d) (manifestDirStep B σ2 d) (h (manifestDirStep B σ1 d))
  rcases hm : d.manifest with _ | m
  · rw [mds_none B σ1 d hm] at hpl hin ⊢
    rw [mds_none B σ2 d hm]
    exact ⟨hd, hs, hpl, hin⟩
  · by_cases h1 : σ1.seenDirs.contains d.key = true
    · have h1b : σ2.seenDirs.contains d.key = true := by rw [hd]; exact h1
      rw [mds_seendir B σ1 d m hm h1] at hpl hin ⊢
      rw [mds_seendir B σ2 d m hm h1b]
      exact ⟨hd, hs, hpl, hin⟩
    · have h1b : ¬ σ2.seenDirs.contains d.key = true := by rw [hd]; exact h1
      by_cases h2 : m.parseOk = true
      · have e1 := mds_scan B σ1 d m hm h1 h2
        have e2 := mds_scan B σ2 d m hm h1b h2
        have hInv2 : SInv { σ1 with seenDirs := d.key :: σ1.seenDirs }
            { σ2 with seenDirs := d.key :: σ2.seenDirs }
            (h (List.foldl (manifestToolStep B d.key)
              { σ1 with seenDirs := d.key :: σ1.seenDirs } m.tools)) := by
          refine ⟨?_, hs, ?_, ?_⟩
          · show d.key :: σ2.seenDirs = d.key :: σ1.seenDirs
            rw [hd]
          · show σ2.plugins = _
            rw [← e1]
            exact hpl
          · show σ2.instrs = _
            rw [← e1]
            exact hin
        have hres := stepsim_foldl (manifestToolStep B d.key)
          (fun t => stepsim_manifestToolStep B d.key t)
          (fun t => goodh_manifestToolStep B d.key t) m.tools
          { σ1 with seenDirs := d.key :: σ1.seenDirs }
          { σ2 with seenDirs := d.key :: σ2.seenDirs } h hG hInv2
        rw [e1, e2]
        exact hres
      · have e1 := mds_noparse B σ1 d m hm h1 h2
        have e2 := mds_noparse B σ2 d m hm h1b h2
        rw [e1] at hpl hin ⊢
        rw [e2]
        refine ⟨?_, hs, hpl, hin⟩
        show d.key :: σ2.seenDirs = d.key :: σ1.seenDirs
        rw [hd]

theorem stepsim_scanSkillsDir (B : PyDict String) (ds : List SkillDirEntry) :
    StepSim (fun σ => scanSkillsDir B σ ds) :=
  stepsim_comp
    (stepsim_foldl (manifestDirStep B) (fun d => stepsim_manifestDirStep B d)
      (fun d => goodh_manifestDirStep B d) ds)
    (stepsim_foldl (skillDirStep B) (fun d => stepsim_skillDirStep B d)
      (fun d => goodh_skillDirStep B d) ds)
    (goodh_foldl (skillDirStep B) (fun d => goodh_skillDirStep B d) ds)

theorem stepsim_scanPluginsSt (B : PyDict String) (fs : FsSnapshot) :
    StepSim (fun σ => scanPluginsSt B fs σ) :=
  stepsim_foldl (scanSkillsDir B) (fun ds => stepsim_scanSkillsDir B ds)
    (fun ds => goodh_scanSkillsDir B ds) fs


/-! ## Claim C3: rescanning is idempotent (without any clearing) -/

/-- Claim C3 (amended): `scan_plugins` does not clear the Plugin and
Instruction maps — it adds to and overwrites them — so a tool whose
files were removed between scans persists; nevertheless, running
`scan_plugins` twice over the same unchanged filesystem yields exactly
the same plugin and instruction tool catalogs as running it once, from
any starting registry. -/
theorem scanPlugins_rescan_idempotent (r : Registry) (fs : FsSnapshot) :
    Registry.scanPlugins (Registry.scanPlugins r fs) fs = Registry.scanPlugins r fs := by
  have hsim := stepsim_scanPluginsSt r.builtinTools fs
    { plugins := r.pluginTools, instrs := r.instructionTools, seenDirs := [], seenTools := [] }
    { plugins := (scanPluginsSt r.builtinTools fs
        { plugins := r.pluginTools, instrs := r.instructionTools,
          seenDirs := [], seenTools := [] }).plugins
      instrs := (scanPluginsSt r.builtinTools fs
        { plugins := r.pluginTools, instrs := r.instructionTools,
          seenDirs := [], seenTools := [] }).instrs
      seenDirs := []
      seenTools := [] }
    (fun σ => σ) goodh_id ⟨rfl, rfl, rfl, rfl⟩
  obtain ⟨_, _, hp2, hi2⟩ := hsim
  unfold Registry.scanPlugins
  dsimp only
  rw [hp2, hi2]


/-! ## Scan-wide invariants for uniqueness (claim C1) -/

theorem foldl_pres {α β : Type} {P : α → Prop} (f : α → β → α)
    (hf : ∀ σ x, P σ → P (f σ x)) : ∀ (l : List β) (σ : α), P σ → P (l.foldl f σ) := by
  intro l
  induction l with
  | nil => intro σ h; exact h
  | cons x xs ih =>
    intro σ h
    exact ih (f σ x) (hf σ x h)

theorem scaninv_manifestToolStep (B : PyDict String) (dir : String) (t : ManifestTool)
    (σ : ScanSt) (h : ScanInv B σ) : ScanInv B (manifestToolStep B dir σ t) := by
  by_cases h1 : t.toolName = ""
  · rw [mts_skip_empty B dir σ t h1]; exact h
  · by_cases h2 : σ.seenTools.contains t.toolName = true
    · rw [mts_skip_seen B dir σ t h1 h2]; exact h
    · by_cases h3 : t.exeExists = false
      · rw [mts_skip_noexe B dir σ t h1 h2 h3]; exact h
      · by_cases h4 : PyDict.contains B t.toolName = true
        · rw [mts_skip_builtin B dir σ t h1 h2 h3 h4]; exact h
        · rw [mts_insert B dir σ t h1 h2 h3 h4]
          intro n
          obtain ⟨hc1, hc2⟩ := h n
          dsimp only
          constructor
          · intro hcon
            rw [PyDict.contains_set] at hcon
            by_cases hnk : n = t.toolName
            · subst hnk
              exact Bool.eq_false_iff.mpr h4
            · rw [if_neg hnk] at hcon
              exact hc1 hcon
          · intro hcon
            obtain ⟨ha, hb2, hc3⟩ := hc2 hcon
            refine ⟨ha, ?_, List.mem_cons_of_mem _ hc3⟩
            rw [PyDict.contains_set]
            have hnk : ¬ n = t.toolName := fun hc => h2 (contains_mem.mpr (hc ▸ hc3))
            rw [if_neg hnk]
            exact hb2

theorem scaninv_skillDirStep (B : PyDict String) (d : SkillDirEntry)
    (σ : ScanSt) (h : ScanInv B σ) : ScanInv B (skillDirStep B σ d) := by
  rcases hsk : d.skill with _ | sk
  · rw [sds_noskill B σ d hsk]; exact h
  · by_cases h1 : σ.seenDirs.contains d.key = true
    · rw [sds_seendir B σ d sk hsk h1]; exact h
    · by_cases h2 : sk.parseOk = true
      · by_cases h3 : PyDict.contains B (skillToolName d sk) = true
            ∨ PyDict.contains σ.plugins (skillToolName d sk) = true
            ∨ σ.seenTools.contains (skillToolName d sk) = true
        · rw [sds_conflict B σ d sk hsk h1 h2 h3]
          intro n
          exact h n
        · rw [sds_insert B σ d sk hsk h1 h2 h3]
          have hB : ¬ PyDict.contains B (skillToolName d sk) = true := fun hc => h3 (Or.inl hc)
          have hplug : ¬ PyDict.contains σ.plugins (skillToolName d sk) = true :=
            fun hc => h3 (Or.inr (Or.inl hc))
          have hseen : ¬ σ.seenTools.contains (skillToolName d sk) = true :=
            fun hc => h3 (Or.inr (Or.inr hc))
          intro n
          obtain ⟨hc1, hc2⟩ := h n
          dsimp only
          constructor
          · intro hcon
            exact hc1 hcon
          · intro hcon
            rw [PyDict.contains_set] at hcon
            by_cases hnk : n = skillToolName d sk
            · subst hnk
              exact ⟨Bool.eq_false_iff.mpr hB, Bool.eq_false_iff.mpr hplug,
                List.mem_cons_self _ _⟩
            · rw [if_neg hnk] at hcon
              obtain ⟨ha, hb2, hc3⟩ := hc2 hcon
              exact ⟨ha, hb2, List.mem_cons_of_mem _ hc3⟩
      · rw [sds_noparse B σ d sk hsk h1 h2]
        intro n
        exact h n

theorem scaninv_manifestDirStep (B : PyDict String) (d : SkillDirEntry)
    (σ : ScanSt) (h : ScanInv B σ) : ScanInv B (manifestDirStep B σ d) := by
  rcases hm : d.manifest with _ | m
  · rw [mds_none B σ d hm]; exact h
  · by_cases h1 : σ.seenDirs.contains d.key = true
    · rw [mds_seendir B σ d m hm h1]; exact h
    · by_cases h2 : m.parseOk = true
      · rw [mds_scan B σ d m hm h1 h2]
        refine foldl_pres (manifestToolStep B d.key)
          (fun σ t hσ => scaninv_manifestToolStep B d.key t σ hσ) m.tools _ ?_
        intro n
        exact h n
      · rw [mds_noparse B σ d m hm h1 h2]
        intro n
        exact h n

theorem scaninv_scanPluginsSt (B : PyDict String) (fs : FsSnapshot)
    (σ : ScanSt) (h : ScanInv B σ) : ScanInv B (scanPluginsSt B fs σ) := by
  refine foldl_pres (scanSkillsDir B) ?_ fs σ h
  intro σ' ds h'
  unfold scanSkillsDir
  refine foldl_pres (skillDirStep B) (fun σ'' d h'' => scaninv_skillDirStep B d σ'' h'') ds _ ?_
  exact foldl_pres (manifestDirStep B) (fun σ'' d h'' => scaninv_manifestDirStep B d σ'' h'') ds _ h'

/-! ## MCP catalog fold facts -/

theorem mcpCatalogStep_fixed (x : Registry) (info : McpToolInfo) :
    (mcpCatalogStep x info).builtinTools = x.builtinTools
      ∧ (mcpCatalogStep x info).pluginTools = x.pluginTools
      ∧ (mcpCatalogStep x info).instructionTools = x.instructionTools := by
  unfold mcpCatalogStep
  split_ifs <;> exact ⟨rfl, rfl, rfl⟩

theorem mcpfold_fixed (cat : List McpToolInfo) :
    ∀ x : Registry,
      (cat.foldl mcpCatalogStep x).builtinTools = x.builtinTools
        ∧ (cat.foldl mcpCatalogStep x).pluginTools = x.pluginTools
        ∧ (cat.foldl mcpCatalogStep x).instructionTools = x.instructionTools := by
  induction cat with
  | nil => intro x; exact ⟨rfl, rfl, rfl⟩
  | cons info rest ih =>
    intro x
    obtain ⟨ha, hb, hc⟩ := ih (mcpCatalogStep x info)
    obtain ⟨ha2, hb2, hc2⟩ := mcpCatalogStep_fixed x info
    exact ⟨ha.trans ha2, hb.trans hb2, hc.trans hc2⟩

theorem mcpfold_inv (cat : List McpToolInfo) :
    ∀ x : Registry,
      (∀ n, PyDict.contains x.mcpTools n = true →
        PyDict.contains x.builtinTools n = false ∧ PyDict.contains x.pluginTools n = false
          ∧ PyDict.contains x.instructionTools n = false) →
      ∀ n, PyDict.contains (cat.foldl mcpCatalogStep x).mcpTools n = true →
        PyDict.contains x.builtinTools n = false ∧ PyDict.contains x.pluginTools n = false
          ∧ PyDict.contains x.instructionTools n = false := by
  induction cat with
  | nil => intro x hx; exact hx
  | cons info rest ih =>
    intro x hx n
    obtain ⟨ha2, hb2, hc2⟩ := mcpCatalogStep_fixed x info
    have hy : ∀ n, PyDict.contains (mcpCatalogStep x info).mcpTools n = true →
        PyDict.contains (mcpCatalogStep x info).builtinTools n = false
          ∧ PyDict.contains (mcpCatalogStep x info).pluginTools n = false
          ∧ PyDict.contains (mcpCatalogStep x info).instructionTools n = false := by
      intro n2
      rw [ha2, hb2, hc2]
      unfold mcpCatalogStep
      split_ifs with hg
      · exact hx n2
      · dsimp only
        intro hcon
        rw [PyDict.contains_set] at hcon
        by_cases hnk : n2 = info.name
        · subst hnk
          refine ⟨Bool.eq_false_iff.mpr (fun hc => hg (Or.inl hc)), ?_, ?_⟩
          · exact Bool.eq_false_iff.mpr (fun hc => hg (Or.inr (Or.inl hc)))
          · exact Bool.eq_false_iff.mpr (fun hc => hg (Or.inr (Or.inr hc)))
        · rw [if_neg hnk] at hcon
          exact hx n2 hcon
    intro hcon
    have := ih (mcpCatalogStep x info) hy n hcon
    rw [ha2, hb2, hc2] at this
    exact this

theorem scanMcp_fixed (r : Registry) (hM : Bool) (c : Nat) (cat : List McpToolInfo) :
    (Registry.scanMcpServers r hM c cat).builtinTools = r.builtinTools
      ∧ (Registry.scanMcpServers r hM c cat).pluginTools = r.pluginTools
      ∧ (Registry.scanMcpServers r hM c cat).instructionTools = r.instructionTools := by
  unfold Registry.scanMcpServers
  split_ifs
  · exact ⟨rfl, rfl, rfl⟩
  · exact ⟨rfl, rfl, rfl⟩
  · exact mcpfold_fixed cat r

theorem runScans_builtin (ops : List ScanOp) :
    ∀ r : Registry, (runScans ops r).builtinTools = r.builtinTools := by
  induction ops with
  | nil => intro r; rfl
  | cons op rest ih =>
    intro r
    cases op with
    | plugins fs =>
      exact (ih (Registry.scanPlugins r fs)).trans rfl
    | mcp h c cat =>
      exact (ih (Registry.scanMcpServers r h c cat)).trans (scanMcp_fixed r h c cat).1

theorem atMostOne_of (b p i m : Bool) (f1 : p = true → b = false)
    (f2 : i = true → b = false ∧ p = false)
    (f3 : m = true → b = false ∧ p = false ∧ i = false) :
    ((if b then 1 else 0) + (if p then 1 else 0) + (if i then 1 else 0)
      + (if m then 1 else 0) : Nat) ≤ 1 := by
  cases b <;> cases p <;> cases i <;> cases m <;> simp_all


/-! ## Claim C1: builtin preservation and canonical-order uniqueness -/

/-- Claim C1 (amended): no scan sequence ever replaces or removes an
entry of the builtin map, and every plugin, instruction or MCP tool
whose name equals an existing builtin name is skipped; full cross-map
uniqueness holds for the canonical startup order — starting from a
registry whose plugin, instruction and MCP maps are empty (the state
right after the `register_builtin` calls), one `scan_plugins` followed
by one `scan_mcp_servers` leaves every registered tool name in at most
one of the four source maps.  (For other scan orders uniqueness can
fail, since the plugin and instruction passes do not consult the MCP
map.) -/
theorem scan_builtin_preserved_and_canonical_unique
    (r : Registry) (ops : List ScanOp) (fs : FsSnapshot) (hM : Bool) (c : Nat)
    (cat : List McpToolInfo)
    (hp : r.pluginTools = []) (hi : r.instructionTools = []) (hm : r.mcpTools = []) :
    (runScans ops r).builtinTools = r.builtinTools
      ∧ Registry.uniqueNames (Registry.scanMcpServers (Registry.scanPlugins r fs) hM c cat)
      ∧ Registry.builtinUnshadowed
          (Registry.scanMcpServers (Registry.scanPlugins r fs) hM c cat) := by
  have hinv0 : ScanInv r.builtinTools
      { plugins := r.pluginTools, instrs := r.instructionTools,
        seenDirs := [], seenTools := [] } := by
    rw [hp, hi]
    intro n
    constructor
    · intro hc
      simp [PyDict.contains, PyDict.dget] at hc
    · intro hc
      simp [PyDict.contains, PyDict.dget] at hc
  have hscan := scaninv_scanPluginsSt r.builtinTools fs _ hinv0
  have hfix := scanMcp_fixed (Registry.scanPlugins r fs) hM c cat
  have hmcpR2 : ∀ n,
      PyDict.contains
          (Registry.scanMcpServers (Registry.scanPlugins r fs) hM c cat).mcpTools n = true →
        PyDict.contains (Registry.scanPlugins r fs).builtinTools n = false
          ∧ PyDict.contains (Registry.scanPlugins r fs).pluginTools n = false
          ∧ PyDict.contains (Registry.scanPlugins r fs).instructionTools n = false := by
    unfold Registry.scanMcpServers
    split_ifs with hc1 hc2
    · intro n hcon
      rw [show (Registry.scanPlugins r fs).mcpTools = r.mcpTools from rfl, hm] at hcon
      simp [PyDict.contains, PyDict.dget] at hcon
    · intro n hcon
      rw [show (Registry.scanPlugins r fs).mcpTools = r.mcpTools from rfl, hm] at hcon
      simp [PyDict.contains, PyDict.dget] at hcon
    · refine mcpfold_inv cat _ ?_
      intro n hcon
      rw [show (Registry.scanPlugins r fs).mcpTools = r.mcpTools from rfl, hm] at hcon
      simp [PyDict.contains, PyDict.dget] at hcon
  have f1 : ∀ n,
      PyDict.contains
          (Registry.scanMcpServers (Registry.scanPlugins r fs) hM c cat).pluginTools n = true →
        PyDict.contains
          (Registry.scanMcpServers (Registry.scanPlugins r fs) hM c cat).builtinTools n
          = false := by
    intro n hcon
    rw [hfix.2.1] at hcon
    rw [hfix.1]
    exact (hscan n).1 hcon
  have f2 : ∀ n,
      PyDict.contains
          (Registry.scanMcpServers (Registry.scanPlugins r fs) hM c cat).instructionTools n
          = true →
        PyDict.contains
            (Registry.scanMcpServers (Registry.scanPlugins r fs) hM c cat).builtinTools n
            = false
          ∧ PyDict.contains
              (Registry.scanMcpServers (Registry.scanPlugins r fs) hM c cat).pluginTools n
              = false := by
    intro n hcon
    rw [hfix.2.2] at hcon
    obtain ⟨ha, hb, _⟩ := (hscan n).2 hcon
    rw [hfix.1, hfix.2.1]
    exact ⟨ha, hb⟩
  have f3 : ∀ n,
      PyDict.contains
          (Registry.scanMcpServers (Registry.scanPlugins r fs) hM c cat).mcpTools n = true →
        PyDict.contains
            (Registry.scanMcpServers (Registry.scanPlugins r fs) hM c cat).builtinTools n
            = false
          ∧ PyDict.contains
              (Registry.scanMcpServers (Registry.scanPlugins r fs) hM c cat).pluginTools n
              = false
          ∧ PyDict.contains
              (Registry.scanMcpServers (Registry.scanPlugins r fs) hM c cat).instructionTools n
              = false := by
    intro n hcon
    obtain ⟨ha, hb, hc⟩ := hmcpR2 n hcon
    rw [hfix.1, hfix.2.1, hfix.2.2]
    exact ⟨ha, hb, hc⟩
  refine ⟨runScans_builtin ops r, ?_, ?_⟩
  · intro n
    exact atMostOne_of _ _ _ _ (f1 n) (f2 n) (f3 n)
  · intro n hb
    refine ⟨?_, ?_, ?_⟩
    · cases hp2 : PyDict.contains
          (Registry.scanMcpServers (Registry.scanPlugins r fs) hM c cat).pluginTools n with
      | false => rfl
      | true =>
        rw [f1 n hp2] at hb
        exact absurd hb (by simp)
    · cases hi2 : PyDict.contains
          (Registry.scanMcpServers (Registry.scanPlugins r fs) hM c cat).instructionTools n with
      | false => rfl
      | true =>
        rw [(f2 n hi2).1] at hb
        exact absurd hb (by simp)
    · cases hm2 : PyDict.contains
          (Registry.scanMcpServers (Registry.scanPlugins r fs) hM c cat).mcpTools n with
      | false => rfl
      | true =>
        rw [(f3 n hm2).1] at hb
        exact absurd hb (by simp)

/-- Witness for C1 (amended) at a concrete registry and scan inputs. -/
theorem scan_builtin_preserved_witness :
    (regOfBuiltins [("readFile", "readFile")]).pluginTools = []
      ∧ ((runScans [ScanOp.plugins (fsOnePlugin "d1" "t1")]
            (regOfBuiltins [("readFile", "readFile")])).builtinTools
          = (regOfBuiltins [("readFile", "readFile")]).builtinTools
        ∧ Registry.uniqueNames
            (Registry.scanMcpServers
              (Registry.scanPlugins (regOfBuiltins [("readFile", "readFile")])
                (fsOnePlugin "d1" "t1"))
              true 1 [{ name := "m1", server := "s", description := "" }])
        ∧ Registry.builtinUnshadowed
            (Registry.scanMcpServers
              (Registry.scanPlugins (regOfBuiltins [("readFile", "readFile")])
                (fsOnePlugin "d1" "t1"))
              true 1 [{ name := "m1", server := "s", description := "" }])) :=
  ⟨rfl,
    scan_builtin_preserved_and_canonical_unique
      (regOfBuiltins [("readFile", "readFile")])
      [ScanOp.plugins (fsOnePlugin "d1" "t1")]
      (fsOnePlugin "d1" "t1") true 1
      [{ name := "m1", server := "s", description := "" }] rfl rfl rfl⟩


/-! ## Claim C2: manager-level collision resolution -/

theorem qualifiedName_ne (server tool : String) : qualifiedName server tool ≠ tool := by
  intro h
  have hl := congrArg String.length h
  rw [qualifiedName] at hl
  rw [String.length_append, String.length_append, String.length_append] at hl
  have h4 : ("mcp_" : String).length = 4 := rfl
  have h1 : ("_" : String).length = 1 := rfl
  rw [h4, h1] at hl
  omega

/-- Claim C2 (amended): when the MCP Manager registers a connected
server's tool, a tool whose preferred short name is not yet owned by an
earlier MCP server is registered under the short name with the server
recorded as owner; a tool whose short name is owned by an earlier MCP
server is registered under the qualified name `mcp_<server>_<tool>`
instead, leaving the earlier owner's entry untouched, so both colliding
tools end up in the manager's catalog.  (A collision with a
Builtin/Plugin/Instruction name is not qualified: the manager does not
know those names, and the registry scan skips such a tool.) -/
theorem mcp_collision_resolution (st : MgrState) (server : String) (t : McpTool) :
    (PyDict.contains st.toolToServer t.name = false →
        PyDict.dget (registerTools st server [t]).tools t.name
            = some { name := t.name, serverName := server, description := t.description }
          ∧ PyDict.dget (registerTools st server [t]).toolToServer t.name = some server)
      ∧ (∀ owner, PyDict.dget st.toolToServer t.name = some owner →
          PyDict.dget (registerTools st server [t]).tools (qualifiedName server t.name)
              = some { name := qualifiedName server t.name, serverName := server,
                       description := t.description }
            ∧ PyDict.dget (registerTools st server [t]).toolToServer t.name = some owner
            ∧ PyDict.dget (registerTools st server [t]).tools t.name
                = PyDict.dget st.tools t.name) := by
  constructor
  · intro hfree
    have hneg : ¬ PyDict.contains st.toolToServer t.name = true := by
      rw [hfree]; simp
    simp only [registerTools, List.foldl_cons, List.foldl_nil, registerToolStep]
    rw [if_neg hneg]
    dsimp only
    constructor
    · rw [PyDict.dget_set]
      simp
    · rw [PyDict.dget_set]
      simp
  · intro owner howner
    have hctrue : PyDict.contains st.toolToServer t.name = true := by
      simp [PyDict.contains, howner]
    simp only [registerTools, List.foldl_cons, List.foldl_nil, registerToolStep]
    rw [if_pos hctrue]
    dsimp only
    refine ⟨?_, howner, ?_⟩
    · rw [PyDict.dget_set]
      simp
    · rw [PyDict.dget_set]
      rw [if_neg (fun hc => qualifiedName_ne server t.name hc.symm)]

/-- Witness for C2 (amended): servers `a` then `b` both exposing
`search` — `a` keeps the short name, `b` lands on `mcp_b_search`. -/
theorem mcp_collision_resolution_witness :
    PyDict.contains MgrState.empty.toolToServer "search" = false
      ∧ PyDict.dget c2MgrSt.toolToServer "search" = some "a"
      ∧ PyDict.dget
          (registerTools c2MgrSt "b" [{ name := "search", description := "d2" }]).tools
          "mcp_b_search"
          = some { name := "mcp_b_search", serverName := "b", description := "d2" }
      ∧ PyDict.dget
          (registerTools c2MgrSt "b" [{ name := "search", description := "d2" }]).toolToServer
          "search" = some "a" := by
  have h1 := (mcp_collision_resolution MgrState.empty "a"
    { name := "search", description := "d" }).1 rfl
  have h2 := (mcp_collision_resolution c2MgrSt "b"
    { name := "search", description := "d2" }).2 "a" h1.2
  exact ⟨rfl, h1.2, h2.1, h2.2.1⟩

/-! ## Claim C7: collect_results and the shared global deadline -/

theorem collectAux_extends_acc (sim : String → Option AgentSim) (d : Int) :
    ∀ (l : List String) (now : Int) (acc : List CollectEntry),
      ∃ tail, collectAux sim d l now acc = acc ++ tail := by
  intro l
  induction l with
  | nil => intro now acc; exact ⟨[], by simp [collectAux]⟩
  | cons id rest ih =>
    intro now acc
    by_cases hbr : d - now ≤ 0
    · exact ⟨[], by simp [collectAux, hbr]⟩
    · cases hsim : sim id with
      | none =>
        obtain ⟨tail, ht⟩ := ih now acc
        refine ⟨tail, ?_⟩
        simp only [collectAux, hsim]
        rw [if_neg hbr]
        exact ht
      | some a =>
        obtain ⟨tail, ht⟩ := ih (waitOnFuture a now (d - now))
          (acc ++ [mkEntry id a (waitOnFuture a now (d - now))])
        refine ⟨[mkEntry id a (waitOnFuture a now (d - now))] ++ tail, ?_⟩
        simp only [collectAux, hsim]
        rw [if_neg hbr, ht]
        simp
  
theorem collectAux_entry_src (sim : String → Option AgentSim) (d : Int) :
    ∀ (l : List String) (now : Int) (acc : List CollectEntry) (e : CollectEntry),
      e ∈ collectAux sim d l now acc → e ∈ acc ∨ e.id ∈ l := by
  intro l
  induction l with
  | nil =>
    intro now acc e hmem
    simp only [collectAux] at hmem
    exact Or.inl hmem
  | cons id rest ih =>
    intro now acc e hmem
    by_cases hbr : d - now ≤ 0
    · simp only [collectAux] at hmem
      rw [if_pos hbr] at hmem
      exact Or.inl hmem
    · cases hsim : sim id with
      | none =>
        simp only [collectAux, hsim] at hmem
        rw [if_neg hbr] at hmem
        rcases ih now acc e hmem with h | h
        · exact Or.inl h
        · exact Or.inr (List.mem_cons_of_mem _ h)
      | some a =>
        simp only [collectAux, hsim] at hmem
        rw [if_neg hbr] at hmem
        rcases ih (waitOnFuture a now (d - now))
            (acc ++ [mkEntry id a (waitOnFuture a now (d - now))]) e hmem with h | h
        · rcases List.mem_append.mp h with h2 | h2
          · exact Or.inl h2
          · simp only [List.mem_singleton] at h2
            subst h2
            exact Or.inr (List.mem_cons_self _ _)
        · exact Or.inr (List.mem_cons_of_mem _ h)

theorem foldl_advance_stuck (sim : String → Option AgentSim) (d : Int) :
    ∀ (l : List String) (now : Int), d - now ≤ 0 →
      List.foldl (advanceClock sim d) now l = now := by
  intro l
  induction l with
  | nil => intro now _; rfl
  | cons x xs ih =>
    intro now hstop
    have hadv : advanceClock sim d now x = now := by
      unfold advanceClock
      rw [if_pos hstop]
    simp only [List.foldl_cons, hadv]
    exact ih now hstop

theorem collectAux_break (sim : String → Option AgentSim) (d : Int) :
    ∀ (xs ys : List String) (now : Int) (acc : List CollectEntry),
      d - List.foldl (advanceClock sim d) now xs ≤ 0 →
      collectAux sim d (xs ++ ys) now acc = collectAux sim d xs now acc := by
  intro xs
  induction xs with
  | nil =>
    intro ys now acc hstop
    simp only [List.foldl_nil] at hstop
    cases ys with
    | nil => simp
    | cons y ys' =>
      simp only [List.nil_append, collectAux]
      rw [if_pos hstop]
  | cons x xs' ih =>
    intro ys now acc hstop
    by_cases hbr : d - now ≤ 0
    · simp only [List.cons_append, collectAux]
      rw [if_pos hbr, if_pos hbr]
    · simp only [List.foldl_cons] at hstop
      cases hsim : sim x with
      | none =>
        have hadv : advanceClock sim d now x = now := by
          unfold advanceClock
          rw [if_neg hbr, hsim]
        rw [hadv] at hstop
        simp only [List.cons_append, collectAux, hsim]
        rw [if_neg hbr, if_neg hbr]
        exact ih ys now acc hstop
      | some a =>
        have hadv : advanceClock sim d now x = waitOnFuture a now (d - now) := by
          unfold advanceClock
          rw [if_neg hbr, hsim]
        rw [hadv] at hstop
        simp only [List.cons_append, collectAux, hsim]
        rw [if_neg hbr, if_neg hbr]
        exact ih ys (waitOnFuture a now (d - now))
          (acc ++ [mkEntry x a (waitOnFuture a now (d - now))]) hstop

theorem collectAux_reached_mem (sim : String → Option AgentSim) (d : Int) :
    ∀ (pre : List String) (id : String) (post : List String) (a : AgentSim)
      (now : Int) (acc : List CollectEntry),
      sim id = some a →
      0 < d - List.foldl (advanceClock sim d) now pre →
      mkEntry id a (advanceClock sim d (List.foldl (advanceClock sim d) now pre) id)
        ∈ collectAux sim d (pre ++ id :: post) now acc := by
  intro pre
  induction pre with
  | nil =>
    intro id post a now acc ha hpos
    simp only [List.foldl_nil] at hpos
    have hbr : ¬ d - now ≤ 0 := by omega
    have hadv : advanceClock sim d now id = waitOnFuture a now (d - now) := by
      unfold advanceClock
      rw [if_neg hbr, ha]
    simp only [List.nil_append, collectAux, ha, List.foldl_nil, hadv]
    rw [if_neg hbr]
    obtain ⟨tail, ht⟩ := collectAux_extends_acc sim d post (waitOnFuture a now (d - now))
      (acc ++ [mkEntry id a (waitOnFuture a now (d - now))])
    rw [ht]
    simp
  | cons x xs ih =>
    intro id post a now acc ha hpos
    have hbr : ¬ d - now ≤ 0 := by
      intro hc
      rw [foldl_advance_stuck sim d (x :: xs) now hc] at hpos
      omega
    simp only [List.foldl_cons] at hpos
    cases hsim : sim x with
    | none =>
      have hadv : advanceClock sim d now x = now := by
        unfold advanceClock
        rw [if_neg hbr, hsim]
      rw [hadv] at hpos
      simp only [List.cons_append, collectAux, hsim, List.foldl_cons, hadv]
      rw [if_neg hbr]
      exact ih id post a now acc ha hpos
    | some b =>
      have hadv : advanceClock sim d now x = waitOnFuture b now (d - now) := by
        unfold advanceClock
        rw [if_neg hbr, hsim]
      rw [hadv] at hpos
      simp only [List.cons_append, collectAux, hsim, List.foldl_cons, hadv]
      rw [if_neg hbr]
      exact ih id post a (waitOnFuture b now (d - now))
        (acc ++ [mkEntry x b (waitOnFuture b now (d - now))]) ha hpos

/-- Claim C7 (amended): `collect_results` shares one global deadline
across all requested ids, waiting on each id's future only up to the
remaining time; every requested id that exists and is reached while the
remaining time is still positive is returned as a snapshot taken right
after its wait; but once the cumulative waiting has exhausted the
deadline the loop breaks, so the remaining requested ids are omitted
entirely rather than returned with their current status. -/
theorem collectResults_global_deadline (sim : String → Option AgentSim) (deadline : Int)
    (pre post : List String) (id : String) (a : AgentSim)
    (ha : sim id = some a) (hpre : id ∉ pre) :
    (0 < deadline - elapsedAfter sim deadline pre →
        mkEntry id a (advanceClock sim deadline (elapsedAfter sim deadline pre) id)
          ∈ collectResults sim (pre ++ id :: post) deadline)
      ∧ (deadline - elapsedAfter sim deadline pre ≤ 0 →
          ∀ e ∈ collectResults sim (pre ++ id :: post) deadline, e.id ≠ id) := by
  constructor
  · intro hpos
    exact collectAux_reached_mem sim deadline pre id post a 0 [] ha hpos
  · intro hstop e hmem
    have hbreak := collectAux_break sim deadline pre (id :: post) 0 [] hstop
    rw [show collectResults sim (pre ++ id :: post) deadline
        = collectAux sim deadline (pre ++ id :: post) 0 [] from rfl, hbreak] at hmem
    rcases collectAux_entry_src sim deadline pre 0 [] e hmem with h | h
    · simp at h
    · intro hc
      rw [hc] at h
      exact hpre h

/-- Witness for C7 (amended): the spec scenario — `a` finishes at 1s,
`b` at 3s, `c` never, timeout 5s — `c` is reached at the 3s mark with
2s remaining and is returned still `running`. -/
theorem collectResults_global_deadline_witness :
    c7SimScenario "c" = some simNever
      ∧ ("c" ∉ (["a", "b"] : List String))
      ∧ 0 < (5 : Int) - elapsedAfter c7SimScenario 5 ["a", "b"]
      ∧ mkEntry "c" simNever
          (advanceClock c7SimScenario 5 (elapsedAfter c7SimScenario 5 ["a", "b"]) "c")
        ∈ collectResults c7SimScenario (["a", "b"] ++ "c" :: []) 5 := by
  refine ⟨rfl, by decide, by decide, ?_⟩
  exact (collectResults_global_deadline c7SimScenario 5 ["a", "b"] [] "c" simNever rfl
    (by decide)).1 (by decide)

end DDOS
